import Mathlib

/-!
# Verification of the jukebox queue/vote engine

Shallow embedding of the core of the jukebox repository:
- `RoomService.voteVideo`, `playNextVideo`, `addVideoToQueue`, `getRoomQueue`,
  `getCurrentVideo`, `getUserVote`, `syncQueueToRedis` (backend room service),
- `RedisService.updateRoomQueue`, `getRoomQueue`, `setCurrentVideo`,
  `updateVideoVote`, `getUserVote`, `getLastUpdate` (redis.service.ts),
- the `GET /:roomId/sync` handler (room.routes.ts),
- `YouTubeService.extractVideoId` (youtube.service.ts).

Postgres tables are modelled as lists of rows; SQL row updates become list
maps/filters/appends.  The Redis store is modelled as association lists.
Wall-clock reads (`Date.now()`, SQL `CURRENT_TIMESTAMP`) are passed in as
explicit parameters.  Timestamps stored in `added_at`/`played_at` are the
ISO-8601 strings Postgres renders; ISO-8601 byte order coincides with
chronological order, so `ORDER BY added_at` is string order.
-/


/-! ## Data model and operations (shallow embedding of the source) -/

/-- Code-point comparison of two characters, as `memcmp` on ASCII text. -/
def charLtb (a b : Char) : Bool := a.toNat < b.toNat

/-- Strict lexicographic order on character lists (byte order for ASCII). -/
def lexLtb : List Char → List Char → Bool
  | [], [] => false
  | [], _ :: _ => true
  | _ :: _, [] => false
  | a :: as, b :: bs =>
    if charLtb a b then true
    else if charLtb b a then false
    else lexLtb as bs

/-- Strict lexicographic order on strings. -/
def strLtb (a b : String) : Bool := lexLtb a.toList b.toList

/-- Non-strict lexicographic order on strings. -/
def strLeb (a b : String) : Bool := !(strLtb b a)

/-- Association-list lookup (first binding wins, as a Redis key lookup). -/
def aget {α : Type} [DecidableEq α] {β : Type} (m : List (α × β)) (k : α) : Option β :=
  (m.find? (fun p => p.1 = k)).map (·.2)

/-- Association-list write: overwrite an existing binding or append a new one. -/
def aset {α : Type} [DecidableEq α] {β : Type} (m : List (α × β)) (k : α) (v : β) :
    List (α × β) :=
  if m.any (fun p => p.1 = k) then
    m.map (fun p => if p.1 = k then (p.1, v) else p)
  else m ++ [(k, v)]

/-- Association-list delete (Redis `DEL`/`HDEL`). -/
def adel {α : Type} [DecidableEq α] {β : Type} (m : List (α × β)) (k : α) :
    List (α × β) :=
  m.filter (fun p => p.1 ≠ k)

/-- Redis `HINCRBY`: add `d` to the field, treating a missing field as 0. -/
def aincr {α : Type} [DecidableEq α] (m : List (α × Int)) (k : α) (d : Int) :
    List (α × Int) :=
  match aget m k with
  | some v => aset m k (v + d)
  | none => aset m k d

/-- A row of the `queue_videos` table (columns used by the core engine). -/
structure QueueVideo where
  id : String
  room_id : String
  youtube_video_id : String
  title : String
  thumbnail_url : String
  duration : Int
  added_by : String
  upvotes : Int
  downvotes : Int
  net_votes : Int
  is_played : Bool
  is_current : Bool
  added_at : String
  played_at : Option String
  deriving Repr, DecidableEq

/-- A row of the `video_votes` table (unique on `(video_id, user_id)`). -/
structure VoteRow where
  video_id : String
  user_id : String
  vote_type : Int
  deriving Repr, DecidableEq

/-- A row of the `rooms` table (columns used by the core engine). -/
structure RoomRow where
  id : String
  admin_id : String
  is_active : Bool
  current_video_id : Option String
  deriving Repr, DecidableEq

/-- The relational store: `users` maps user id to username. -/
structure DB where
  users : List (String × String)
  rooms : List RoomRow
  queue_videos : List QueueVideo
  video_votes : List VoteRow
  deriving Repr, DecidableEq

/-- A queue row joined with `users.username` (`SELECT qv.*, u.username`). -/
abbrev QRow := QueueVideo × String

/-- A member entry stored in the Redis room-members hash. -/
structure MemberEntry where
  userId : String
  username : String
  joinedAt : Nat
  deriving Repr, DecidableEq

/-- The Redis cache.  Sorted-set members are kept as parsed rows together
with their score; `serializeRow` below gives the member string that decides
tie order on reads.  TTLs are not modelled (no real-time expiry). -/
structure Cache where
  roomQueue : List (String × List (QRow × Int))
  current : List (String × QRow)
  userVotes : List ((String × String) × Int)
  voteCounts : List ((String × String × Bool) × Int)
  members : List (String × List MemberEntry)
  lastUpdate : List (String × Nat)
  deriving Repr, DecidableEq

/-- Models `SELECT * FROM rooms WHERE id = $1` (first row). -/
def findRoom (db : DB) (roomId : String) : Option RoomRow :=
  db.rooms.find? (fun r => r.id = roomId)

/-- Models `SELECT qv.*, r.id AS room_id FROM queue_videos qv JOIN rooms r ON
qv.room_id = r.id WHERE qv.id = $1 AND qv.is_played = false`: the inner join
makes the row visible only when its room row exists. -/
def findActiveVideo (db : DB) (videoId : String) : Option QueueVideo :=
  (db.queue_videos.find? (fun v => v.id = videoId && v.is_played = false)).bind
    (fun v => if (findRoom db v.room_id).isSome then some v else none)

/-- Models `SELECT * FROM queue_videos WHERE id = $1` (first row). -/
def findVideoById (db : DB) (videoId : String) : Option QueueVideo :=
  db.queue_videos.find? (fun v => v.id = videoId)

/-- Models `SELECT vote_type FROM video_votes WHERE video_id = $1 AND user_id = $2`. -/
def lookupVote (db : DB) (videoId userId : String) : Option Int :=
  (db.video_votes.find? (fun r => r.video_id = videoId && r.user_id = userId)).map
    (·.vote_type)

/-- Unsorted result of `SELECT qv.*, u.username FROM queue_videos qv JOIN
users u ON qv.added_by = u.id WHERE qv.room_id = $1 AND qv.is_played = false`. -/
def activeRows (db : DB) (roomId : String) : List QRow :=
  db.queue_videos.filterMap (fun v =>
    if v.room_id = roomId && v.is_played = false then
      (aget db.users v.added_by).map (fun u => (v, u))
    else none)

/-- Models `ORDER BY qv.net_votes DESC, qv.added_at ASC`. -/
def queueRel (a b : QRow) : Prop :=
  b.1.net_votes < a.1.net_votes ∨
    (a.1.net_votes = b.1.net_votes ∧ strLeb a.1.added_at b.1.added_at = true)

instance : DecidableRel queueRel := fun a b => by
  unfold queueRel; infer_instance

/-- The ordered queue the tally store returns for a room. -/
def sortedActiveRows (db : DB) (roomId : String) : List QRow :=
  List.insertionSort queueRel (activeRows db roomId)

/-- JSON rendering of a string value (modelled values need no escaping). -/
def jstr (s : String) : String := "\"" ++ s ++ "\""

/-- JSON rendering of a boolean value. -/
def jbool (b : Bool) : String := if b then "true" else "false"

/-- JSON rendering of a nullable string value. -/
def jnullable (s : Option String) : String :=
  match s with
  | some v => jstr v
  | none => "null"

/-- Models `JSON.stringify` of a joined queue row. -/
def serializeRow (r : QRow) : String :=
  "\x7b\"id\":" ++ jstr r.1.id ++
  ",\"room_id\":" ++ jstr r.1.room_id ++
  ",\"youtube_video_id\":" ++ jstr r.1.youtube_video_id ++
  ",\"title\":" ++ jstr r.1.title ++
  ",\"thumbnail_url\":" ++ jstr r.1.thumbnail_url ++
  ",\"duration\":" ++ toString r.1.duration ++
  ",\"added_by\":" ++ jstr r.1.added_by ++
  ",\"upvotes\":" ++ toString r.1.upvotes ++
  ",\"downvotes\":" ++ toString r.1.downvotes ++
  ",\"net_votes\":" ++ toString r.1.net_votes ++
  ",\"is_played\":" ++ jbool r.1.is_played ++
  ",\"is_current\":" ++ jbool r.1.is_current ++
  ",\"added_at\":" ++ jstr r.1.added_at ++
  ",\"played_at\":" ++ jnullable r.1.played_at ++
  ",\"added_by_username\":" ++ jstr r.2 ++ "\x7d"

/-- Write of the room's last-update key (`Date.now().toString()`). -/
def cacheSetLastUpdate (c : Cache) (roomId : String) (now : Nat) : Cache :=
  { c with lastUpdate := aset c.lastUpdate roomId now }

/-- Models `RedisService.getLastUpdate`: parse the stored timestamp, `0` if absent. -/
def getLastUpdate (c : Cache) (roomId : String) : Nat :=
  (aget c.lastUpdate roomId).getD 0

/-- One `videoData[JSON.stringify(video)] = video.net_votes` step followed by
`ZADD`: an existing member keeps its place and gets the new score. -/
def zaddEntry (l : List (QRow × Int)) (r : QRow) (score : Int) : List (QRow × Int) :=
  if l.any (fun e => serializeRow e.1 = serializeRow r) then
    l.map (fun e => if serializeRow e.1 = serializeRow r then (e.1, score) else e)
  else l ++ [(r, score)]

/-- Models `RedisService.updateRoomQueue`: `DEL` the key, `ZADD` every row with
its `net_votes` as score, and set the room's last-update timestamp. -/
def updateRoomQueue (c : Cache) (roomId : String) (videos : List QRow) (now : Nat) :
    Cache :=
  let entries := videos.foldl (fun acc r => zaddEntry acc r r.1.net_votes) []
  cacheSetLastUpdate
    { c with roomQueue := aset c.roomQueue roomId entries } roomId now

/-- Redis `ZRANGE key 0 -1 REV` order: score descending; members with equal
score come in reverse lexicographic order of the member string. -/
def zrevRel (a b : QRow × Int) : Prop :=
  b.2 < a.2 ∨ (a.2 = b.2 ∧ strLeb (serializeRow b.1) (serializeRow a.1) = true)

instance : DecidableRel zrevRel := fun a b => by
  unfold zrevRel; infer_instance

/-- Models `RedisService.getRoomQueue`: read the sorted set back (parsing each
member string recovers the row it serializes). -/
def cacheQueueRead (c : Cache) (roomId : String) : List QRow :=
  (List.insertionSort zrevRel ((aget c.roomQueue roomId).getD [])).map (·.1)

/-- Models `RedisService.setCurrentVideo`: store or delete the current-video
key, then set the last-update timestamp. -/
def setCurrentVideoCache (c : Cache) (roomId : String) (v : Option QRow) (now : Nat) :
    Cache :=
  match v with
  | some r => cacheSetLastUpdate { c with current := aset c.current roomId r } roomId now
  | none => cacheSetLastUpdate { c with current := adel c.current roomId } roomId now

/-- Models `RedisService.getCurrentVideo`. -/
def getCurrentVideoCache (c : Cache) (roomId : String) : Option QRow :=
  aget c.current roomId

/-- Models `RedisService.updateVideoVote`: maintain the per-user vote hash and
the per-video up/down counters, then set the last-update timestamp. -/
def updateVideoVoteCache (c : Cache) (roomId videoId userId : String)
    (oldVote : Option Int) (newVote : Int) (now : Nat) : Cache :=
  let uv :=
    if newVote = 0 then adel c.userVotes (userId, videoId)
    else aset c.userVotes (userId, videoId) newVote
  let vc :=
    match oldVote with
    | some o =>
      if o = 1 then aincr c.voteCounts (roomId, videoId, true) (-1)
      else aincr c.voteCounts (roomId, videoId, false) (-1)
    | none => c.voteCounts
  let vc :=
    if newVote ≠ 0 then
      if newVote = 1 then aincr vc (roomId, videoId, true) 1
      else aincr vc (roomId, videoId, false) 1
    else vc
  cacheSetLastUpdate { c with userVotes := uv, voteCounts := vc } roomId now

/-- Models `RedisService.getUserVote`: the per-user hash field, `null` if absent. -/
def getUserVoteCache (c : Cache) (userId videoId : String) : Option Int :=
  aget c.userVotes (userId, videoId)

/-- Models `RedisService.getRoomMembers`. -/
def getRoomMembersCache (c : Cache) (roomId : String) : List MemberEntry :=
  (aget c.members roomId).getD []

/-- Models `RoomService.syncQueueToRedis`: query the ordered non-played queue
from the store and push it into the Redis sorted set. -/
def syncQueueToRedisOp (db : DB) (roomId : String) (c : Cache) (now : Nat) : Cache :=
  updateRoomQueue c roomId (sortedActiveRows db roomId) now

/-- The pure vote-delta block of `RoomService.voteVideo`: old vote and
requested vote give `(upvoteChange, downvoteChange, finalVoteType)`,
with `finalVoteType = 0` meaning the vote row is removed. -/
def voteChanges (oldVote : Option Int) (voteType : Int) : Int × Int × Int :=
  match oldVote with
  | none =>
    if voteType = 1 then (1, 0, voteType) else (0, 1, voteType)
  | some o =>
    if o ≠ voteType then
      let u : Int := if o = 1 then -1 else 0
      let d : Int := if o = 1 then 0 else -1
      let u := if voteType = 1 then u + 1 else u
      let d := if voteType = 1 then d else d + 1
      (u, d, voteType)
    else
      if o = 1 then (-1, 0, 0) else (0, -1, 0)

/-- The vote-row write of `voteVideo`: `DELETE` when the final vote is 0,
otherwise `INSERT ... ON CONFLICT (video_id, user_id) DO UPDATE`. -/
def applyVoteRowDb (db : DB) (videoId userId : String) (finalVote : Int) : DB :=
  if finalVote = 0 then
    { db with video_votes :=
        db.video_votes.filter (fun r => !(r.video_id = videoId && r.user_id = userId)) }
  else if db.video_votes.any (fun r => r.video_id = videoId && r.user_id = userId) then
    { db with video_votes :=
        db.video_votes.map (fun r =>
          if r.video_id = videoId && r.user_id = userId then
            { r with vote_type := finalVote }
          else r) }
  else
    { db with video_votes := db.video_votes ++ [⟨videoId, userId, finalVote⟩] }

/-- The counter update of `voteVideo`: `SET upvotes = upvotes + $1, downvotes
= downvotes + $2, net_votes = upvotes + $1 - (downvotes + $2)`. -/
def applyVoteCounts (db : DB) (videoId : String) (du dd : Int) : DB :=
  { db with queue_videos :=
      db.queue_videos.map (fun v =>
        if v.id = videoId then
          { v with upvotes := v.upvotes + du,
                   downvotes := v.downvotes + dd,
                   net_votes := v.upvotes + du - (v.downvotes + dd) }
        else v) }

/-- Models `RoomService.voteVideo`, with transient-failure injection.  The
numbered `failAt` points stand for a throw at the corresponding `await`; a
throw runs `ROLLBACK`, which restores the store to its pre-transaction state,
while Redis writes already issued inside the `try` block stay applied.
Points: 0 video select, 1 vote select, 2 vote-row write, 3 counter write,
4 `redisService.updateVideoVote`, 5 `syncQueueToRedis`, 6 `COMMIT`.
On success, the video is re-read after commit (`rows[0]`, possibly absent). -/
def voteVideoRun (db : DB) (c : Cache) (userId videoId : String) (voteType : Int)
    (now : Nat) (failAt : Option Nat) :
    Except String (Option QueueVideo) × DB × Cache :=
  if failAt = some 0 then (.error "transient", db, c) else
  match findActiveVideo db videoId with
  | none => (.error "Video not found or already played", db, c)
  | some video =>
    if failAt = some 1 then (.error "transient", db, c) else
    let oldVote := lookupVote db videoId userId
    let vc := voteChanges oldVote voteType
    let upvoteChange := vc.1
    let downvoteChange := vc.2.1
    let finalVoteType := vc.2.2
    if failAt = some 2 then (.error "transient", db, c) else
    let db1 := applyVoteRowDb db videoId userId finalVoteType
    if failAt = some 3 then (.error "transient", db, c) else
    let db2 := applyVoteCounts db1 videoId upvoteChange downvoteChange
    if failAt = some 4 then (.error "transient", db, c) else
    let c1 := updateVideoVoteCache c video.room_id videoId userId oldVote finalVoteType now
    if failAt = some 5 then (.error "transient", db, c1) else
    let c2 := syncQueueToRedisOp db2 video.room_id c1 now
    if failAt = some 6 then (.error "transient", db, c2) else
    (.ok (findVideoById db2 videoId), db2, c2)

/-- Models `RoomService.voteVideo` on the no-failure path. -/
def voteVideo (db : DB) (c : Cache) (userId videoId : String) (voteType : Int)
    (now : Nat) : Except String (Option QueueVideo) × DB × Cache :=
  voteVideoRun db c userId videoId voteType now none

/-- The first `UPDATE` of `playNextVideo`: mark every current video of the
room as played (`is_current = false, is_played = true, played_at = now`). -/
def markCurrentPlayed (db : DB) (roomId : String) (ts : String) : DB :=
  { db with queue_videos :=
      db.queue_videos.map (fun v =>
        if v.room_id = roomId && v.is_current then
          { v with is_current := false, is_played := true, played_at := some ts }
        else v) }

/-- Models `UPDATE queue_videos SET is_current = true WHERE id = $1`. -/
def setCurrentFlag (db : DB) (videoId : String) : DB :=
  { db with queue_videos :=
      db.queue_videos.map (fun v =>
        if v.id = videoId then { v with is_current := true } else v) }

/-- Models `UPDATE rooms SET current_video_id = $1 WHERE id = $2`. -/
def setRoomCurrentVideo (db : DB) (roomId : String) (vid : Option String) : DB :=
  { db with rooms :=
      db.rooms.map (fun r =>
        if r.id = roomId then { r with current_video_id := vid } else r) }

/-- Models `RoomService.playNextVideo`: admin check, retire the current video,
promote the head of the ordered queue (if any), refresh the cache. -/
def playNextVideo (db : DB) (c : Cache) (roomId adminId : String)
    (ts : String) (now : Nat) :
    Except String (Option QRow) × DB × Cache :=
  match findRoom db roomId with
  | none => (.error "Unauthorized: Only room admin can control playback", db, c)
  | some room =>
    if room.admin_id ≠ adminId then
      (.error "Unauthorized: Only room admin can control playback", db, c)
    else
      let db1 := markCurrentPlayed db roomId ts
      match (sortedActiveRows db1 roomId).head? with
      | some r =>
        let db2 := setCurrentFlag db1 r.1.id
        let nextVideo : QRow := ({ r.1 with is_current := true }, r.2)
        let db3 := setRoomCurrentVideo db2 roomId (some r.1.id)
        let c1 := setCurrentVideoCache c roomId (some nextVideo) now
        let c2 := syncQueueToRedisOp db3 roomId c1 now
        (.ok (some nextVideo), db3, c2)
      | none =>
        let db3 := setRoomCurrentVideo db1 roomId none
        let c1 := setCurrentVideoCache c roomId none now
        let c2 := syncQueueToRedisOp db3 roomId c1 now
        (.ok none, db3, c2)

/-- Models `RoomService.getRoomQueue`: Redis first (a non-empty read is a
hit), otherwise the store query, writing a non-empty result back to Redis. -/
def getRoomQueueRS (db : DB) (c : Cache) (roomId : String) (now : Nat) :
    List QRow × Cache :=
  let redisQueue := cacheQueueRead c roomId
  if redisQueue.length > 0 then (redisQueue, c)
  else
    let queue := sortedActiveRows db roomId
    if queue.length > 0 then (queue, updateRoomQueue c roomId queue now)
    else (queue, c)

/-- Models `RoomService.getCurrentVideo`: Redis first, store fallback with
write-back when a current row exists. -/
def getCurrentVideoRS (db : DB) (c : Cache) (roomId : String) (now : Nat) :
    Option QRow × Cache :=
  match getCurrentVideoCache c roomId with
  | some v => (some v, c)
  | none =>
    let rows := db.queue_videos.filterMap (fun v =>
      if v.room_id = roomId && v.is_current then
        (aget db.users v.added_by).map (fun u => (v, u))
      else none)
    match rows.head? with
    | some r => (some r, setCurrentVideoCache c roomId (some r) now)
    | none => (none, c)

/-- Models `RoomService.getUserVote`: Redis per-user hash first, store fallback. -/
def getUserVoteRS (db : DB) (c : Cache) (userId videoId : String) : Option Int :=
  match getUserVoteCache c userId videoId with
  | some v => some v
  | none => lookupVote db videoId userId

/-- The value of a JavaScript expression of static type `string | null` that
may in fact also be `undefined` (`match[1]` of a group-less pattern). -/
inductive JsStr where
  | str (s : String)
  | undefinedV
  | nullV
  deriving Repr, DecidableEq

/-- JavaScript falsiness for `JsStr` (`null`, `undefined`, the empty string). -/
def JsStr.isFalsy : JsStr → Bool
  | .str s => s = ""
  | .undefinedV => true
  | .nullV => true

/-- The character class that the capture groups exclude (`&`, newline, `?`, `#`). -/
def stopChar (c : Char) : Bool :=
  c = '&' || c = '\n' || c = '?' || c = '#'

/-- The character class `[a-zA-Z0-9_-]` of the bare-video-id pattern. -/
def idChar (c : Char) : Bool :=
  ('a' ≤ c && c ≤ 'z') || ('A' ≤ c && c ≤ 'Z') || ('0' ≤ c && c ≤ '9') ||
    c = '_' || c = '-'

/-- Try the literal alternatives of the pattern at the current position: the
first alternative that is a prefix here and is followed by at least one
non-stop character matches, capturing greedily. -/
def tryAltsAt (alts : List (List Char)) (cs : List Char) : Option (List Char) :=
  match alts with
  | [] => none
  | a :: rest =>
    if a.isPrefixOf cs then
      let cap := (cs.drop a.length).takeWhile (fun c => !stopChar c)
      if cap.isEmpty then tryAltsAt rest cs else some cap
    else tryAltsAt rest cs

/-- Leftmost match over the whole string: scan positions left to right,
alternatives in order at each position. -/
def scanAlts (alts : List (List Char)) : List Char → Option (List Char)
  | [] => none
  | c :: cs =>
    match tryAltsAt alts (c :: cs) with
    | some cap => some cap
    | none => scanAlts alts cs

/-- Literal alternatives of the first pattern of `extractVideoId`. -/
def pat1Alts : List (List Char) :=
  ["youtube.com/watch?v=".toList, "youtu.be/".toList, "youtube.com/embed/".toList]

/-- Literal alternative of the shorts pattern. -/
def pat2Alts : List (List Char) := ["youtube.com/shorts/".toList]

/-- An anchored bare video id: exactly 11 characters of the id alphabet. -/
def isBareId (cs : List Char) : Bool :=
  cs.length = 11 && cs.all idChar

/-- Models `YouTubeService.extractVideoId`: try the three patterns in order
and return `match[1]` of the first match.  The bare-id pattern has no capture
group, so its `match[1]` is `undefined`. -/
def extractVideoId (url : String) : JsStr :=
  let cs := url.toList
  match scanAlts pat1Alts cs with
  | some cap => .str (String.mk cap)
  | none =>
    match scanAlts pat2Alts cs with
    | some cap => .str (String.mk cap)
    | none =>
      if isBareId cs then .undefinedV else .nullV

/-- Models `YouTubeService.getBasicVideoInfo`: the no-API-key fallback metadata. -/
def getBasicVideoInfo (videoId : String) : String × String × Int :=
  ("YouTube Video", "https://img.youtube.com/vi/" ++ videoId ++ "/hqdefault.jpg", 0)

/-- Models `RoomService.addVideoToQueue` in the no-API-key mode (the metadata
collaborator degrades to `getBasicVideoInfo`; spec section 9 documents this
mode).  `newId` is the generated row id, `addedAt` the insertion timestamp. -/
def addVideoToQueue (db : DB) (c : Cache) (roomId userId youtubeUrl : String)
    (newId : String) (addedAt : String) (now : Nat) :
    Except String QueueVideo × DB × Cache :=
  let videoId := extractVideoId youtubeUrl
  if videoId.isFalsy then (.error "Invalid YouTube URL", db, c)
  else
    match videoId with
    | .str vid =>
      let info := getBasicVideoInfo vid
      if db.queue_videos.any
          (fun v => v.room_id = roomId && v.youtube_video_id = vid &&
            v.is_played = false) then
        (.error "Video already in queue", db, c)
      else
        let row : QueueVideo :=
          { id := newId, room_id := roomId, youtube_video_id := vid,
            title := info.1, thumbnail_url := info.2.1, duration := info.2.2,
            added_by := userId, upvotes := 0, downvotes := 0, net_votes := 0,
            is_played := false, is_current := false,
            added_at := addedAt, played_at := none }
        let db1 := { db with queue_videos := db.queue_videos ++ [row] }
        let c1 := syncQueueToRedisOp db1 roomId c now
        (.ok row, db1, c1)
    | _ => (.error "Invalid YouTube URL", db, c)

/-- The response of the sync handler. -/
inductive SyncResult where
  | noUpdates (lastUpdate : Nat)
  | updates (current : Option QRow) (queue : List (QRow × Option Int))
      (members : List MemberEntry) (lastUpdate : Nat)
  deriving Repr, DecidableEq

/-- Models the `GET /:roomId/sync` handler: compare the room's cursor with
the client cursor; on a non-greater cursor answer `has_updates = false` at
once, otherwise assemble current video, the queue annotated with the caller's
votes, and the member list, and return them with the cursor read at the
start. -/
def syncRoom (db : DB) (c : Cache) (roomId userId : String)
    (clientCursor : Nat) (now : Nat) : SyncResult × Cache :=
  let currentLastUpdate := getLastUpdate c roomId
  if currentLastUpdate ≤ clientCursor then
    (.noUpdates currentLastUpdate, c)
  else
    let cv := getCurrentVideoRS db c roomId now
    let q := getRoomQueueRS db cv.2 roomId now
    let mem := getRoomMembersCache q.2 roomId
    let queueWithVotes :=
      q.1.map (fun r => (r, getUserVoteRS db q.2 userId r.1.id))
    (.updates cv.1 queueWithVotes mem currentLastUpdate, q.2)

instance {e a : Type} [DecidableEq e] [DecidableEq a] : DecidableEq (Except e a) :=
  fun x y =>
    match x, y with
    | .ok u, .ok v =>
      if h : u = v then .isTrue (by rw [h]) else .isFalse (by intro hc; cases hc; exact h rfl)
    | .error u, .error v =>
      if h : u = v then .isTrue (by rw [h]) else .isFalse (by intro hc; cases hc; exact h rfl)
    | .ok _, .error _ => .isFalse (by intro hc; cases hc)
    | .error _, .ok _ => .isFalse (by intro hc; cases hc)

/-- Modelled from the spec: the section 4.1 transition table
`(old vote, requested) → (upvote Δ, downvote Δ, stored result)`, stated
independently of the implementation for comparison with `voteChanges`. -/
def specVoteTable (o : Option Int) (t : Int) : Int × Int × Option Int :=
  match o with
  | none => if t = 1 then (1, 0, some 1) else (0, 1, some (-1))
  | some o' =>
    if o' = t then
      if t = 1 then (-1, 0, none) else (0, -1, none)
    else
      if t = 1 then (1, -1, some 1) else (-1, 1, some (-1))

/-- Every stored item's net score is its upvotes minus downvotes. -/
def NetInv (db : DB) : Prop :=
  ∀ v ∈ db.queue_videos, v.net_votes = v.upvotes - v.downvotes

/-- Primary-key uniqueness of `queue_videos.id`. -/
def uniqueVideoIds (db : DB) : Prop :=
  db.queue_videos.Pairwise (fun a b => a.id ≠ b.id)

/-- The `(video_id, user_id)` uniqueness constraint on `video_votes`. -/
def uniqueVoteKeys (l : List VoteRow) : Prop :=
  l.Pairwise (fun a b => ¬(a.video_id = b.video_id ∧ a.user_id = b.user_id))

/-- Number of vote rows a voter holds on an item. -/
def voteRowCount (l : List VoteRow) (videoId userId : String) : Nat :=
  (l.filter (fun r => r.video_id = videoId && r.user_id = userId)).length

/-- At most one item of the room is marked current. -/
def atMostOneCurrent (db : DB) (roomId : String) : Prop :=
  (db.queue_videos.filter (fun v => v.room_id = roomId && v.is_current)).length ≤ 1

/-- One engine operation (vote with optional transient failure, advance,
add), with its wall-clock inputs. -/
inductive Op where
  | vote (userId videoId : String) (t : Int) (now : Nat) (failAt : Option Nat)
  | advance (roomId adminId ts : String) (now : Nat)
  | add (roomId userId url newId addedAt : String) (now : Nat)

/-- State transition of one operation (result value dropped). -/
def applyOp (s : DB × Cache) : Op → DB × Cache
  | .vote u vid t now failAt => (voteVideoRun s.1 s.2 u vid t now failAt).2
  | .advance rid aid ts now => (playNextVideo s.1 s.2 rid aid ts now).2
  | .add rid uid url nid ts2 now => (addVideoToQueue s.1 s.2 rid uid url nid ts2 now).2

/-- Run a sequence of operations. -/
def runOps (s : DB × Cache) : List Op → DB × Cache
  | [] => s
  | op :: rest => runOps (applyOp s op) rest

/-- An unplayed video with no votes, submitted first. -/
def vidA : QueueVideo :=
  { id := "a", room_id := "r", youtube_video_id := "ya", title := "A",
    thumbnail_url := "", duration := 0, added_by := "u", upvotes := 0,
    downvotes := 0, net_votes := 0, is_played := false, is_current := false,
    added_at := "1", played_at := none }

/-- An unplayed video with no votes, submitted second. -/
def vidB : QueueVideo :=
  { vidA with id := "b", youtube_video_id := "yb", added_at := "2" }

/-- A room administered by `adm`. -/
def roomR : RoomRow :=
  { id := "r", admin_id := "adm", is_active := true, current_video_id := none }

/-- Store with two tied videos in room `r`. -/
def dbAB : DB :=
  { users := [("u", "alice")], rooms := [roomR],
    queue_videos := [vidA, vidB], video_votes := [] }

/-- The empty cache. -/
def emptyCache : Cache :=
  { roomQueue := [], current := [], userVotes := [], voteCounts := [],
    members := [], lastUpdate := [] }

/-- The row update applied to the voted video's counters. -/
def bumpCounts (du dd : Int) (v : QueueVideo) : QueueVideo :=
  { v with upvotes := v.upvotes + du,
           downvotes := v.downvotes + dd,
           net_votes := v.upvotes + du - (v.downvotes + dd) }

instance (db : DB) : Decidable (uniqueVideoIds db) := by
  unfold uniqueVideoIds; infer_instance

instance (l : List VoteRow) : Decidable (uniqueVoteKeys l) := by
  unfold uniqueVoteKeys; infer_instance

instance (db : DB) : Decidable (NetInv db) := by
  unfold NetInv; infer_instance

instance (db : DB) (roomId : String) : Decidable (atMostOneCurrent db roomId) := by
  unfold atMostOneCurrent; infer_instance

/-- An unplayed video carrying one downvote from `u`. -/
def vidX : QueueVideo :=
  { vidA with id := "x", youtube_video_id := "yx", downvotes := 1, net_votes := -1 }

/-- Store in which voter `u` already holds a −1 vote on `x`. -/
def dbX : DB :=
  { users := [("u", "alice")], rooms := [roomR],
    queue_videos := [vidX], video_votes := [⟨"x", "u", -1⟩] }

/-- Cache whose cursor for room `r` stands at 5. -/
def cache5 : Cache := { emptyCache with lastUpdate := [("r", 5)] }

/-- A played (immutable) video. -/
def vidP : QueueVideo :=
  { vidA with id := "p", youtube_video_id := "yp", is_played := true }

/-- Store whose only video is already played. -/
def dbPlayed : DB :=
  { users := [("u", "alice")], rooms := [roomR],
    queue_videos := [vidP], video_votes := [] }

/-- Store with an empty queue for room `r`. -/
def dbNoQ : DB :=
  { users := [("u", "alice")], rooms := [roomR], queue_videos := [], video_votes := [] }

/-- Variant of the first video with one upvote (net score 1). -/
def vidA1 : QueueVideo := { vidA with upvotes := 1, net_votes := 1 }

/-- Store whose active items have pairwise distinct net scores. -/
def dbDV : DB :=
  { users := [("u", "alice")], rooms := [roomR],
    queue_videos := [vidA1, vidB], video_votes := [] }

/-! ## Properties -/

theorem find?_map_invariant {α : Type} (g : α → α) (p : α → Bool)
    (hp : ∀ v, p (g v) = p v) :
    ∀ l : List α, (l.map g).find? p = (l.find? p).map g := by
  intro l
  induction l with
  | nil => rfl
  | cons a l ih =>
    by_cases h : p a = true
    · simp [List.find?_cons, hp, h]
    · simp only [Bool.not_eq_true] at h
      simp [List.find?_cons, hp, h, ih]

theorem filter_map_invariant {α : Type} (g : α → α) (p : α → Bool)
    (hp : ∀ v, p (g v) = p v) :
    ∀ l : List α, (l.map g).filter p = (l.filter p).map g := by
  intro l
  induction l with
  | nil => rfl
  | cons a l ih =>
    by_cases h : p a = true
    · simp [List.filter_cons, hp, h, ih]
    · simp only [Bool.not_eq_true] at h
      simp [List.filter_cons, hp, h, ih]

theorem filter_map_false {α : Type} (g : α → α) (p : α → Bool) :
    ∀ l : List α, (∀ v ∈ l, p (g v) = false) → (l.map g).filter p = [] := by
  intro l
  induction l with
  | nil => intro _; rfl
  | cons a l ih =>
    intro h
    simp [List.filter_cons, h a (by simp), ih (fun v hv => h v (by simp [hv]))]

theorem length_filter_mono_mem {α : Type} (p q : α → Bool) :
    ∀ l : List α, (∀ a ∈ l, p a = true → q a = true) →
      (l.filter p).length ≤ (l.filter q).length := by
  intro l
  induction l with
  | nil => intro _; simp
  | cons a l ih =>
    intro h
    have hl := ih (fun v hv => h v (by simp [hv]))
    by_cases hp : p a = true
    · simp [List.filter_cons, hp, h a (by simp) hp, Nat.succ_le_succ hl]
    · simp only [Bool.not_eq_true] at hp
      by_cases hq : q a = true
      · simp [List.filter_cons, hp, hq]
        exact le_trans hl (Nat.le_succ _)
      · simp only [Bool.not_eq_true] at hq
        simp [List.filter_cons, hp, hq, hl]

theorem length_filter_map_congr_mem {α : Type} (g : α → α) (p : α → Bool) :
    ∀ l : List α, (∀ a ∈ l, p (g a) = p a) →
      ((l.map g).filter p).length = (l.filter p).length := by
  intro l
  induction l with
  | nil => intro _; rfl
  | cons a l ih =>
    intro h
    have hl := ih (fun v hv => h v (by simp [hv]))
    by_cases hp : p a = true
    · simp [List.filter_cons, hp, h a (by simp), hl]
    · simp only [Bool.not_eq_true] at hp
      simp [List.filter_cons, hp, h a (by simp), hl]

theorem find?_eq_of_mem_of_unique {α : Type} (p : α → Bool) :
    ∀ (l : List α), l.Pairwise (fun a b => p a = true → p b = true → False) →
      ∀ v ∈ l, p v = true → l.find? p = some v := by
  intro l
  induction l with
  | nil => intro _ v hv; cases hv
  | cons a l ih =>
    intro hpw v hv hp
    rcases List.pairwise_cons.mp hpw with ⟨ha, hl⟩
    rcases List.mem_cons.mp hv with hv | hv
    · subst hv; simp [List.find?_cons, hp]
    · have hpa : p a = false := by
        by_contra hc
        simp only [Bool.not_eq_false] at hc
        exact ha v hv hc hp
      simp [List.find?_cons, hpa, ih hl v hv hp]

theorem length_filter_le_one {α : Type} (p : α → Bool) :
    ∀ l : List α, l.Pairwise (fun a b => p a = true → p b = true → False) →
      (l.filter p).length ≤ 1 := by
  intro l
  induction l with
  | nil => intro _; simp
  | cons a l ih =>
    intro hpw
    rcases List.pairwise_cons.mp hpw with ⟨ha, hl⟩
    by_cases hp : p a = true
    · have : l.filter p = [] := by
        apply List.filter_eq_nil_iff.mpr
        intro b hb hpb
        exact ha b hb hp hpb
      simp [List.filter_cons, hp, this]
    · simp only [Bool.not_eq_true] at hp
      simp [List.filter_cons, hp, ih hl]

theorem pairwise_mem_ne {α : Type} {R : α → α → Prop} (hsym : ∀ x y, R x y → R y x) :
    ∀ l : List α, l.Pairwise R → ∀ a ∈ l, ∀ b ∈ l, a ≠ b → R a b := by
  intro l
  induction l with
  | nil => intro _ a ha; cases ha
  | cons x t ih =>
    intro hpw a ha b hb hne
    rcases List.pairwise_cons.mp hpw with ⟨hx, ht⟩
    rcases List.mem_cons.mp ha with ha1 | ha1
    · rcases List.mem_cons.mp hb with hb1 | hb1
      · exact absurd (ha1.trans hb1.symm) hne
      · subst ha1
        exact hx b hb1
    · rcases List.mem_cons.mp hb with hb1 | hb1
      · subst hb1
        exact hsym _ _ (hx a ha1)
      · exact ih ht a ha1 b hb1 hne

theorem aget_aset_self {α β : Type} [DecidableEq α] (m : List (α × β)) (k : α) (v : β) :
    aget (aset m k v) k = some v := by
  unfold aset
  cases hany : m.any (fun p => p.1 = k) with
  | true =>
    simp only [hany, if_true]
    rcases List.any_eq_true.mp hany with ⟨p0, hp0, hk0⟩
    unfold aget
    have hinv : ∀ q : α × β,
        (fun p : α × β => decide (p.1 = k)) ((fun p : α × β => if p.1 = k then (p.1, v) else p) q) =
          (fun p : α × β => decide (p.1 = k)) q := by
      intro q
      by_cases hq : q.1 = k <;> simp [hq]
    rw [find?_map_invariant _ _ hinv]
    have hsome : m.find? (fun p => p.1 = k) ≠ none := by
      intro hn
      rw [List.find?_eq_none] at hn
      exact hn p0 hp0 hk0
    rcases Option.ne_none_iff_exists'.mp hsome with ⟨q0, hq0⟩
    have hq0k : q0.1 = k := by simpa using List.find?_some hq0
    simp [hq0, hq0k]
  | false =>
    simp only [hany, Bool.false_eq_true, if_false]
    unfold aget
    rw [List.find?_append]
    have hnone : m.find? (fun p => p.1 = k) = none := by
      rw [List.find?_eq_none]
      intro x hx hpx
      have hc : m.any (fun p => p.1 = k) = true := List.any_eq_true.mpr ⟨x, hx, hpx⟩
      rw [hany] at hc
      exact Bool.noConfusion hc
    simp [hnone]

/-- Writing the last-update key makes `getLastUpdate` read back that time. -/
theorem getLastUpdate_setLastUpdate (c : Cache) (roomId : String) (now : Nat) :
    getLastUpdate (cacheSetLastUpdate c roomId now) roomId = now := by
  unfold getLastUpdate cacheSetLastUpdate
  simp [aget_aset_self]

theorem applyVoteRowDb_queue (db : DB) (vid uid : String) (fv : Int) :
    (applyVoteRowDb db vid uid fv).queue_videos = db.queue_videos := by
  unfold applyVoteRowDb
  split <;> first | rfl | (split <;> rfl)

theorem applyVoteRowDb_rooms (db : DB) (vid uid : String) (fv : Int) :
    (applyVoteRowDb db vid uid fv).rooms = db.rooms := by
  unfold applyVoteRowDb
  split <;> first | rfl | (split <;> rfl)

theorem applyVoteCounts_votes (db : DB) (vid : String) (du dd : Int) :
    (applyVoteCounts db vid du dd).video_votes = db.video_votes := rfl

theorem applyVoteCounts_rooms (db : DB) (vid : String) (du dd : Int) :
    (applyVoteCounts db vid du dd).rooms = db.rooms := rfl

theorem applyVoteCounts_users (db : DB) (vid : String) (du dd : Int) :
    (applyVoteCounts db vid du dd).users = db.users := rfl

theorem applyVoteCounts_queue_eq (db : DB) (vid : String) (du dd : Int) :
    (applyVoteCounts db vid du dd).queue_videos =
      db.queue_videos.map (fun v => if v.id = vid then bumpCounts du dd v else v) := rfl

theorem findActive_facts (db : DB) (vid : String) (v : QueueVideo)
    (hv : findActiveVideo db vid = some v) :
    v.id = vid ∧ v.is_played = false ∧ v ∈ db.queue_videos ∧
      (findRoom db v.room_id).isSome = true := by
  unfold findActiveVideo at hv
  cases hfind : db.queue_videos.find? (fun w => w.id = vid && w.is_played = false) with
  | none => rw [hfind] at hv; cases hv
  | some v0 =>
    rw [hfind] at hv
    rw [Option.some_bind] at hv
    by_cases hr : (findRoom db v0.room_id).isSome = true
    · rw [if_pos hr] at hv
      cases hv
      have hp := List.find?_some hfind
      simp only [Bool.and_eq_true, decide_eq_true_eq] at hp
      exact ⟨hp.1, hp.2, List.mem_of_find?_eq_some hfind, hr⟩
    · rw [if_neg hr] at hv; cases hv

theorem findVideoById_of_findActive (db : DB) (vid : String) (v : QueueVideo)
    (hu : uniqueVideoIds db) (hv : findActiveVideo db vid = some v) :
    findVideoById db vid = some v := by
  rcases findActive_facts db vid v hv with ⟨hid, _, hmem, _⟩
  unfold findVideoById
  apply find?_eq_of_mem_of_unique
  · exact hu.imp (fun hne h1 h2 => hne (by
      simp only [decide_eq_true_eq] at h1 h2
      rw [h1, h2]))
  · exact hmem
  · simpa using hid

theorem findVideoById_applyVoteCounts_self (db : DB) (vid : String) (du dd : Int)
    (v : QueueVideo) (hv : findVideoById db vid = some v) :
    findVideoById (applyVoteCounts db vid du dd) vid = some (bumpCounts du dd v) := by
  have hid : v.id = vid := by simpa using List.find?_some hv
  unfold findVideoById at hv ⊢
  rw [applyVoteCounts_queue_eq]
  have hp : ∀ w : QueueVideo,
      (fun x : QueueVideo => decide (x.id = vid))
          ((fun x => if x.id = vid then bumpCounts du dd x else x) w) =
        (fun x : QueueVideo => decide (x.id = vid)) w := by
    intro w
    by_cases hw : w.id = vid
    · simp [hw, bumpCounts]
    · simp [hw]
  rw [find?_map_invariant _ _ hp, hv]
  simp [hid]

theorem lookupVote_applyVoteRowDb_self (db : DB) (vid uid : String) (fv : Int)
    (hfv : fv ≠ 0) :
    lookupVote (applyVoteRowDb db vid uid fv) vid uid = some fv := by
  unfold applyVoteRowDb
  rw [if_neg hfv]
  cases hany : db.video_votes.any (fun r => r.video_id = vid && r.user_id = uid) with
  | true =>
    simp only [hany, if_true]
    unfold lookupVote
    have hp : ∀ r : VoteRow,
        (fun x : VoteRow => x.video_id = vid && x.user_id = uid)
            ((fun x : VoteRow =>
              if x.video_id = vid && x.user_id = uid then { x with vote_type := fv }
              else x) r) =
          (fun x : VoteRow => x.video_id = vid && x.user_id = uid) r := by
      intro r
      by_cases h1 : r.video_id = vid
      · by_cases h2 : r.user_id = uid
        · simp [h1, h2]
        · simp [h2]
      · simp [h1]
    rw [find?_map_invariant _ _ hp]
    rcases List.any_eq_true.mp hany with ⟨r0, hr0, hk0⟩
    have hsome : db.video_votes.find? (fun r => r.video_id = vid && r.user_id = uid) ≠
        none := by
      intro hn
      rw [List.find?_eq_none] at hn
      exact hn r0 hr0 hk0
    rcases Option.ne_none_iff_exists'.mp hsome with ⟨q0, hq0⟩
    have hq0k : q0.video_id = vid ∧ q0.user_id = uid := by
      simpa using List.find?_some hq0
    rw [hq0]
    simp [hq0k.1, hq0k.2]
  | false =>
    simp only [hany, Bool.false_eq_true, if_false]
    unfold lookupVote
    rw [List.find?_append]
    have hnone : db.video_votes.find? (fun r => r.video_id = vid && r.user_id = uid) =
        none := by
      rw [List.find?_eq_none]
      intro x hx hpx
      have hc : db.video_votes.any (fun r => r.video_id = vid && r.user_id = uid) = true :=
        List.any_eq_true.mpr ⟨x, hx, hpx⟩
      rw [hany] at hc
      exact Bool.noConfusion hc
    rw [hnone]
    simp

theorem lookupVote_applyVoteRowDb_zero (db : DB) (vid uid : String) :
    lookupVote (applyVoteRowDb db vid uid 0) vid uid = none := by
  unfold applyVoteRowDb
  rw [if_pos rfl]
  unfold lookupVote
  have hnone : (db.video_votes.filter
      (fun r => !(r.video_id = vid && r.user_id = uid))).find?
        (fun r => r.video_id = vid && r.user_id = uid) = none := by
    rw [List.find?_eq_none]
    intro x hx hpx
    have := List.of_mem_filter hx
    rw [hpx] at this
    exact Bool.noConfusion this
  rw [hnone]
  rfl

theorem uniqueVoteKeys_applyVoteRowDb (db : DB) (vid uid : String) (fv : Int)
    (hu : uniqueVoteKeys db.video_votes) :
    uniqueVoteKeys (applyVoteRowDb db vid uid fv).video_votes := by
  unfold applyVoteRowDb uniqueVoteKeys
  split
  · exact List.Pairwise.sublist (List.filter_sublist _) hu
  · split
    · rename_i hany
      rw [List.pairwise_map]
      have hkeys : ∀ r : VoteRow,
          ((fun x : VoteRow =>
            if x.video_id = vid && x.user_id = uid then { x with vote_type := fv }
            else x) r).video_id = r.video_id ∧
          ((fun x : VoteRow =>
            if x.video_id = vid && x.user_id = uid then { x with vote_type := fv }
            else x) r).user_id = r.user_id := by
        intro r
        by_cases h1 : r.video_id = vid
        · by_cases h2 : r.user_id = uid
          · simp [h1, h2]
          · simp [h2]
        · simp [h1]
      refine hu.imp ?_
      intro a b hab hcon
      apply hab
      rcases hkeys a with ⟨ka1, ka2⟩
      rcases hkeys b with ⟨kb1, kb2⟩
      refine ⟨?_, ?_⟩
      · rw [← ka1, ← kb1]; exact hcon.1
      · rw [← ka2, ← kb2]; exact hcon.2
    · rename_i hany
      rw [List.pairwise_append]
      refine ⟨hu, List.pairwise_singleton _ _, ?_⟩
      intro a ha b hb hcon
      have hb1 : b = ⟨vid, uid, fv⟩ := by simpa using hb
      subst hb1
      simp only at hcon
      have hc : db.video_votes.any (fun r => r.video_id = vid && r.user_id = uid) = true :=
        List.any_eq_true.mpr ⟨a, ha, by simp [hcon.1, hcon.2]⟩
      exact hany hc

theorem voteVideo_success_shape (db : DB) (c : Cache) (u vid : String) (t : Int)
    (now : Nat) (v : QueueVideo) (hv : findActiveVideo db vid = some v) :
    voteVideo db c u vid t now =
      (Except.ok (findVideoById
          (applyVoteCounts (applyVoteRowDb db vid u (voteChanges (lookupVote db vid u) t).2.2)
            vid (voteChanges (lookupVote db vid u) t).1
            (voteChanges (lookupVote db vid u) t).2.1) vid),
        applyVoteCounts (applyVoteRowDb db vid u (voteChanges (lookupVote db vid u) t).2.2)
          vid (voteChanges (lookupVote db vid u) t).1
          (voteChanges (lookupVote db vid u) t).2.1,
        syncQueueToRedisOp
          (applyVoteCounts (applyVoteRowDb db vid u (voteChanges (lookupVote db vid u) t).2.2)
            vid (voteChanges (lookupVote db vid u) t).1
            (voteChanges (lookupVote db vid u) t).2.1)
          v.room_id
          (updateVideoVoteCache c v.room_id vid u (lookupVote db vid u)
            (voteChanges (lookupVote db vid u) t).2.2 now)
          now) := by
  unfold voteVideo voteVideoRun
  rw [hv]
  simp

theorem voteVideo_notFound (db : DB) (c : Cache) (u vid : String) (t : Int) (now : Nat)
    (hv : findActiveVideo db vid = none) :
    voteVideo db c u vid t now = (.error "Video not found or already played", db, c) := by
  unfold voteVideo voteVideoRun
  rw [hv]
  simp

theorem netInv_of_queue_eq (db db' : DB) (hq : db'.queue_videos = db.queue_videos)
    (h : NetInv db) : NetInv db' := by
  intro v hv
  rw [hq] at hv
  exact h v hv

theorem netInv_applyVoteCounts (db : DB) (vid : String) (du dd : Int) (h : NetInv db) :
    NetInv (applyVoteCounts db vid du dd) := by
  intro v hv
  rw [applyVoteCounts_queue_eq] at hv
  rcases List.mem_map.mp hv with ⟨w, hw, hmap⟩
  by_cases hid : w.id = vid
  · rw [if_pos hid] at hmap
    rw [← hmap]
    simp [bumpCounts]
  · rw [if_neg hid] at hmap
    rw [← hmap]
    exact h w hw

theorem netInv_map (db : DB) (g : QueueVideo → QueueVideo)
    (hg : ∀ v, (g v).upvotes = v.upvotes ∧ (g v).downvotes = v.downvotes ∧
      (g v).net_votes = v.net_votes)
    (h : NetInv db) : NetInv { db with queue_videos := db.queue_videos.map g } := by
  intro v hv
  simp only at hv
  rcases List.mem_map.mp hv with ⟨w, hw, hmap⟩
  rcases hg w with ⟨h1, h2, h3⟩
  rw [← hmap, h1, h2, h3]
  exact h w hw

theorem netInv_voteVideoRun (db : DB) (c : Cache) (u vid : String) (t : Int)
    (now : Nat) (failAt : Option Nat) (h : NetInv db) :
    NetInv (voteVideoRun db c u vid t now failAt).2.1 := by
  unfold voteVideoRun
  have hdb2 : ∀ fv du dd,
      NetInv (applyVoteCounts (applyVoteRowDb db vid u fv) vid du dd) := by
    intro fv du dd
    exact netInv_applyVoteCounts _ _ _ _
      (netInv_of_queue_eq db _ (applyVoteRowDb_queue db vid u fv) h)
  dsimp only
  repeat' split
  all_goals first
    | exact h
    | exact hdb2 _ _ _

theorem netInv_markCurrentPlayed (db : DB) (roomId ts : String) (h : NetInv db) :
    NetInv (markCurrentPlayed db roomId ts) := by
  unfold markCurrentPlayed
  apply netInv_map db _ _ h
  intro v
  by_cases hc : (v.room_id = roomId && v.is_current) = true
  · simp [hc]
  · simp only [Bool.not_eq_true] at hc
    simp [hc]

theorem netInv_setCurrentFlag (db : DB) (vid : String) (h : NetInv db) :
    NetInv (setCurrentFlag db vid) := by
  unfold setCurrentFlag
  apply netInv_map db _ _ h
  intro v
  by_cases hc : v.id = vid
  · simp [hc]
  · simp [hc]

theorem netInv_playNextVideo (db : DB) (c : Cache) (rid aid ts : String) (now : Nat)
    (h : NetInv db) : NetInv (playNextVideo db c rid aid ts now).2.1 := by
  unfold playNextVideo
  have h1 := netInv_markCurrentPlayed db rid ts h
  dsimp only
  repeat' split
  all_goals first
    | exact h
    | (apply netInv_of_queue_eq _ _ rfl
       exact netInv_setCurrentFlag _ _ h1)
    | exact netInv_of_queue_eq _ _ rfl h1

theorem netInv_addVideoToQueue (db : DB) (c : Cache) (rid uid url nid ts2 : String)
    (now : Nat) (h : NetInv db) : NetInv (addVideoToQueue db c rid uid url nid ts2 now).2.1 := by
  unfold addVideoToQueue
  dsimp only
  repeat' split
  all_goals first
    | exact h
    | (intro v hv
       simp only [List.mem_append, List.mem_singleton] at hv
       rcases hv with hv | hv
       · exact h v hv
       · rw [hv]
         simp)

theorem netInv_applyOp (s : DB × Cache) (op : Op) (h : NetInv s.1) :
    NetInv (applyOp s op).1 := by
  cases op with
  | vote u vid t now failAt => exact netInv_voteVideoRun s.1 s.2 u vid t now failAt h
  | advance rid aid ts now => exact netInv_playNextVideo s.1 s.2 rid aid ts now h
  | add rid uid url nid ts2 now => exact netInv_addVideoToQueue s.1 s.2 rid uid url nid ts2 now h

theorem netInv_runOps (ops : List Op) : ∀ s : DB × Cache, NetInv s.1 →
    NetInv (runOps s ops).1 := by
  induction ops with
  | nil => intro s h; exact h
  | cons op rest ih =>
    intro s h
    exact ih (applyOp s op) (netInv_applyOp s op h)

theorem voteRowCount_le_one (l : List VoteRow) (hu : uniqueVoteKeys l)
    (vid uid : String) : voteRowCount l vid uid ≤ 1 := by
  unfold voteRowCount
  apply length_filter_le_one
  refine hu.imp ?_
  intro a b hab h1 h2
  simp only [Bool.and_eq_true, decide_eq_true_eq] at h1 h2
  exact hab ⟨h1.1.trans h2.1.symm, h1.2.trans h2.2.symm⟩

theorem voteVideo_core (db : DB) (c : Cache) (u vid : String) (t : Int) (now : Nat)
    (v : QueueVideo) (hv : findActiveVideo db vid = some v) (hu : uniqueVideoIds db)
    (du dd fv : Int) (hch : voteChanges (lookupVote db vid u) t = (du, dd, fv)) :
    voteVideo db c u vid t now =
      (.ok (some (bumpCounts du dd v)),
       applyVoteCounts (applyVoteRowDb db vid u fv) vid du dd,
       syncQueueToRedisOp (applyVoteCounts (applyVoteRowDb db vid u fv) vid du dd)
         v.room_id
         (updateVideoVoteCache c v.room_id vid u (lookupVote db vid u) fv now) now) := by
  have hvid := findVideoById_of_findActive db vid v hu hv
  rw [voteVideo_success_shape db c u vid t now v hv, hch]
  have hb1 : findVideoById (applyVoteRowDb db vid u fv) vid = some v := by
    unfold findVideoById
    rw [applyVoteRowDb_queue]
    exact hvid
  have hb2 := findVideoById_applyVoteCounts_self (applyVoteRowDb db vid u fv) vid du dd v hb1
  dsimp only
  rw [hb2]

theorem voteVideo_lookup_core (db : DB) (vid u : String) (fv du dd : Int) :
    lookupVote (applyVoteCounts (applyVoteRowDb db vid u fv) vid du dd) vid u =
      (if fv = 0 then none else some fv) := by
  have hsame : lookupVote (applyVoteCounts (applyVoteRowDb db vid u fv) vid du dd) vid u =
      lookupVote (applyVoteRowDb db vid u fv) vid u := rfl
  rw [hsame]
  by_cases hfv : fv = 0
  · rw [if_pos hfv, hfv]
    exact lookupVote_applyVoteRowDb_zero db vid u
  · rw [if_neg hfv]
    exact lookupVote_applyVoteRowDb_self db vid u fv hfv

/-- C1: `voteVideo` follows the section 4.1 transition table for every
combination of the voter's old vote (none, +1, −1) and the requested vote
(+1, −1): the counters change by the table's deltas, the stored vote is the
table's result (with toggle-off deleting the row), the net score is
recomputed, and the `(item, voter)` pair keeps at most one vote row. -/
theorem voteVideo_transition_table
    (db : DB) (c : Cache) (u vid : String) (t : Int) (now : Nat) (v : QueueVideo)
    (hv : findActiveVideo db vid = some v)
    (hu : uniqueVideoIds db)
    (hk : uniqueVoteKeys db.video_votes)
    (ht : t = 1 ∨ t = -1)
    (ho : lookupVote db vid u = none ∨ lookupVote db vid u = some 1 ∨
      lookupVote db vid u = some (-1)) :
    ∃ w db' c',
      voteVideo db c u vid t now = (.ok (some w), db', c') ∧
      w.upvotes = v.upvotes + (specVoteTable (lookupVote db vid u) t).1 ∧
      w.downvotes = v.downvotes + (specVoteTable (lookupVote db vid u) t).2.1 ∧
      w.net_votes = w.upvotes - w.downvotes ∧
      lookupVote db' vid u = (specVoteTable (lookupVote db vid u) t).2.2 ∧
      uniqueVoteKeys db'.video_votes ∧
      voteRowCount db'.video_votes vid u ≤ 1 := by
  rcases ho with ho | ho | ho <;> rcases ht with rfl | rfl
  · have hch : voteChanges (lookupVote db vid u) 1 = (1, 0, 1) := by rw [ho]; decide
    refine ⟨bumpCounts 1 0 v, _, _,
      voteVideo_core db c u vid 1 now v hv hu 1 0 1 hch, ?_, ?_, ?_, ?_, ?_, ?_⟩
    · rw [ho]; simp [bumpCounts, specVoteTable]
    · rw [ho]; simp [bumpCounts, specVoteTable]
    · simp [bumpCounts]
    · rw [ho, voteVideo_lookup_core]; simp [specVoteTable]
    · exact uniqueVoteKeys_applyVoteRowDb db vid u 1 hk
    · exact voteRowCount_le_one _ (uniqueVoteKeys_applyVoteRowDb db vid u 1 hk) vid u
  · have hch : voteChanges (lookupVote db vid u) (-1) = (0, 1, -1) := by rw [ho]; decide
    refine ⟨bumpCounts 0 1 v, _, _,
      voteVideo_core db c u vid (-1) now v hv hu 0 1 (-1) hch, ?_, ?_, ?_, ?_, ?_, ?_⟩
    · rw [ho]; simp [bumpCounts, specVoteTable]
    · rw [ho]; simp [bumpCounts, specVoteTable]
    · simp [bumpCounts]
    · rw [ho, voteVideo_lookup_core]; simp [specVoteTable]
    · exact uniqueVoteKeys_applyVoteRowDb db vid u (-1) hk
    · exact voteRowCount_le_one _ (uniqueVoteKeys_applyVoteRowDb db vid u (-1) hk) vid u
  · have hch : voteChanges (lookupVote db vid u) 1 = (-1, 0, 0) := by rw [ho]; decide
    refine ⟨bumpCounts (-1) 0 v, _, _,
      voteVideo_core db c u vid 1 now v hv hu (-1) 0 0 hch, ?_, ?_, ?_, ?_, ?_, ?_⟩
    · rw [ho]; simp [bumpCounts, specVoteTable]
    · rw [ho]; simp [bumpCounts, specVoteTable]
    · simp [bumpCounts]
    · rw [ho, voteVideo_lookup_core]; simp [specVoteTable]
    · exact uniqueVoteKeys_applyVoteRowDb db vid u 0 hk
    · exact voteRowCount_le_one _ (uniqueVoteKeys_applyVoteRowDb db vid u 0 hk) vid u
  · have hch : voteChanges (lookupVote db vid u) (-1) = (-1, 1, -1) := by rw [ho]; decide
    refine ⟨bumpCounts (-1) 1 v, _, _,
      voteVideo_core db c u vid (-1) now v hv hu (-1) 1 (-1) hch, ?_, ?_, ?_, ?_, ?_, ?_⟩
    · rw [ho]; simp [bumpCounts, specVoteTable]
    · rw [ho]; simp [bumpCounts, specVoteTable]
    · simp [bumpCounts]
    · rw [ho, voteVideo_lookup_core]; simp [specVoteTable]
    · exact uniqueVoteKeys_applyVoteRowDb db vid u (-1) hk
    · exact voteRowCount_le_one _ (uniqueVoteKeys_applyVoteRowDb db vid u (-1) hk) vid u
  · have hch : voteChanges (lookupVote db vid u) 1 = (1, -1, 1) := by rw [ho]; decide
    refine ⟨bumpCounts 1 (-1) v, _, _,
      voteVideo_core db c u vid 1 now v hv hu 1 (-1) 1 hch, ?_, ?_, ?_, ?_, ?_, ?_⟩
    · rw [ho]; simp [bumpCounts, specVoteTable]
    · rw [ho]; simp [bumpCounts, specVoteTable]
    · simp [bumpCounts]
    · rw [ho, voteVideo_lookup_core]; simp [specVoteTable]
    · exact uniqueVoteKeys_applyVoteRowDb db vid u 1 hk
    · exact voteRowCount_le_one _ (uniqueVoteKeys_applyVoteRowDb db vid u 1 hk) vid u
  · have hch : voteChanges (lookupVote db vid u) (-1) = (0, -1, 0) := by rw [ho]; decide
    refine ⟨bumpCounts 0 (-1) v, _, _,
      voteVideo_core db c u vid (-1) now v hv hu 0 (-1) 0 hch, ?_, ?_, ?_, ?_, ?_, ?_⟩
    · rw [ho]; simp [bumpCounts, specVoteTable]
    · rw [ho]; simp [bumpCounts, specVoteTable]
    · simp [bumpCounts]
    · rw [ho, voteVideo_lookup_core]; simp [specVoteTable]
    · exact uniqueVoteKeys_applyVoteRowDb db vid u 0 hk
    · exact voteRowCount_le_one _ (uniqueVoteKeys_applyVoteRowDb db vid u 0 hk) vid u

/-- Witness for C1 at a concrete state: a fresh +1 vote on an existing item. -/
theorem voteVideo_transition_table_witness :
    ∃ w db' c',
      voteVideo dbAB emptyCache "u" "a" 1 5 = (.ok (some w), db', c') ∧
      w.upvotes = vidA.upvotes + (specVoteTable (lookupVote dbAB "a" "u") 1).1 ∧
      w.downvotes = vidA.downvotes + (specVoteTable (lookupVote dbAB "a" "u") 1).2.1 ∧
      w.net_votes = w.upvotes - w.downvotes ∧
      lookupVote db' "a" "u" = (specVoteTable (lookupVote dbAB "a" "u") 1).2.2 ∧
      uniqueVoteKeys db'.video_votes ∧
      voteRowCount db'.video_votes "a" "u" ≤ 1 :=
  voteVideo_transition_table dbAB emptyCache "u" "a" 1 5 vidA (by decide)
    (by decide) (by decide) (Or.inl rfl) (Or.inl (by decide))

/-- C2: after every `voteVideo` call, for any sequence of operations from
any number of voters, every stored item satisfies
`net_votes = upvotes − downvotes`; moreover the voted item's net score is
recomputed from the counters in the same update, unconditionally. -/
theorem net_votes_recomputed :
    (∀ (db : DB) (c : Cache) (ops : List Op), NetInv db →
      NetInv (runOps (db, c) ops).1) ∧
    (∀ (db : DB) (c : Cache) (u vid : String) (t : Int) (now : Nat) (w : Option QueueVideo),
      (voteVideo db c u vid t now).1 = .ok w →
      ∀ x ∈ (voteVideo db c u vid t now).2.1.queue_videos, x.id = vid →
        x.net_votes = x.upvotes - x.downvotes) := by
  constructor
  · intro db c ops h
    exact netInv_runOps ops (db, c) h
  · intro db c u vid t now w hok x hx hid
    cases hv : findActiveVideo db vid with
    | none =>
      rw [voteVideo_notFound db c u vid t now hv] at hok
      cases hok
    | some v =>
      rw [voteVideo_success_shape db c u vid t now v hv] at hx
      simp only [applyVoteCounts_queue_eq] at hx
      rw [applyVoteRowDb_queue] at hx
      rcases List.mem_map.mp hx with ⟨w0, _, hmap⟩
      by_cases hw0 : w0.id = vid
      · rw [if_pos hw0] at hmap
        rw [← hmap]
        simp [bumpCounts]
      · rw [if_neg hw0] at hmap
        rw [← hmap] at hid
        exact absurd hid hw0

/-- Witness for C2: a vote sequence on a concrete store, and a concrete
successful vote whose item has its net score recomputed. -/
theorem net_votes_recomputed_witness :
    NetInv (runOps (dbAB, emptyCache)
      [Op.vote "u" "a" 1 5 none, Op.vote "u" "a" (-1) 6 none]).1 ∧
    (∀ x ∈ (voteVideo dbAB emptyCache "u" "a" 1 5).2.1.queue_videos, x.id = "a" →
      x.net_votes = x.upvotes - x.downvotes) :=
  ⟨net_votes_recomputed.1 dbAB emptyCache _ (by decide),
   net_votes_recomputed.2 dbAB emptyCache "u" "a" 1 5
     (voteVideo dbAB emptyCache "u" "a" 1 5).1.toOption.join (by decide)⟩

theorem findActive_destruct (db : DB) (vid : String) (v : QueueVideo)
    (hv : findActiveVideo db vid = some v) :
    db.queue_videos.find? (fun w => w.id = vid && w.is_played = false) = some v ∧
      (findRoom db v.room_id).isSome = true := by
  unfold findActiveVideo at hv
  cases hfind : db.queue_videos.find? (fun w => w.id = vid && w.is_played = false) with
  | none => rw [hfind] at hv; cases hv
  | some v0 =>
    rw [hfind] at hv
    rw [Option.some_bind] at hv
    by_cases hr : (findRoom db v0.room_id).isSome = true
    · rw [if_pos hr] at hv
      cases hv
      exact ⟨rfl, hr⟩
    · rw [if_neg hr] at hv; cases hv

theorem bumpCounts_id (vid : String) (du dd : Int) (w : QueueVideo) :
    (if w.id = vid then bumpCounts du dd w else w).id = w.id := by
  by_cases h : w.id = vid <;> simp [h, bumpCounts]

theorem bumpCounts_played (vid : String) (du dd : Int) (w : QueueVideo) :
    (if w.id = vid then bumpCounts du dd w else w).is_played = w.is_played := by
  by_cases h : w.id = vid <;> simp [h, bumpCounts]

theorem findActiveVideo_core (db : DB) (vid u : String) (fv du dd : Int)
    (v : QueueVideo) (hv : findActiveVideo db vid = some v) :
    findActiveVideo (applyVoteCounts (applyVoteRowDb db vid u fv) vid du dd) vid =
      some (bumpCounts du dd v) := by
  rcases findActive_destruct db vid v hv with ⟨hfind, hroom⟩
  have hidv : v.id = vid := by
    have := List.find?_some hfind
    simp only [Bool.and_eq_true, decide_eq_true_eq] at this
    exact this.1
  unfold findActiveVideo
  rw [applyVoteCounts_queue_eq, applyVoteRowDb_queue]
  have hp : ∀ w : QueueVideo,
      (fun x : QueueVideo => x.id = vid && x.is_played = false)
          ((fun x : QueueVideo => if x.id = vid then bumpCounts du dd x else x) w) =
        (fun x : QueueVideo => x.id = vid && x.is_played = false) w := by
    intro w
    dsimp only
    rw [bumpCounts_id vid du dd w, bumpCounts_played vid du dd w]
  rw [find?_map_invariant _ _ hp, hfind]
  rw [Option.map_some', Option.some_bind]
  have hgv : (if v.id = vid then bumpCounts du dd v else v) = bumpCounts du dd v :=
    if_pos hidv
  rw [hgv]
  have hrooms : findRoom (applyVoteCounts (applyVoteRowDb db vid u fv) vid du dd)
      (bumpCounts du dd v).room_id = findRoom db v.room_id := by
    unfold findRoom
    rw [applyVoteCounts_rooms, applyVoteRowDb_rooms]
    rfl
  rw [hrooms, if_pos hroom]

theorem uniqueVideoIds_core (db : DB) (vid u : String) (fv du dd : Int)
    (hu : uniqueVideoIds db) :
    uniqueVideoIds (applyVoteCounts (applyVoteRowDb db vid u fv) vid du dd) := by
  unfold uniqueVideoIds
  rw [applyVoteCounts_queue_eq, applyVoteRowDb_queue]
  rw [List.pairwise_map]
  refine hu.imp ?_
  intro a b hab
  rw [bumpCounts_id vid du dd a, bumpCounts_id vid du dd b]
  exact hab

/-- C8 counterexample: voter `u` holds a −1 vote on item `x` (downvotes = 1);
submitting `(u, x, +1)` twice leaves downvotes = 0, not the pre-call value 1,
so the double application does not restore the counters for every prior
state. -/
theorem toggle_twice_not_restored :
    (findVideoById (voteVideo (voteVideo dbX emptyCache "u" "x" 1 5).2.1
        (voteVideo dbX emptyCache "u" "x" 1 5).2.2 "u" "x" 1 6).2.1 "x" =
      some { vidX with upvotes := 0, downvotes := 0, net_votes := 0 }) ∧
    lookupVote (voteVideo (voteVideo dbX emptyCache "u" "x" 1 5).2.1
        (voteVideo dbX emptyCache "u" "x" 1 5).2.2 "u" "x" 1 6).2.1 "x" "u" = none ∧
    vidX.downvotes = 1 := by decide

/-- C8 (amended): for a voter with no existing vote on the item, applying the
same `(voterId, itemId, voteType)` twice in a row restores the item's upvote
and downvote counters to their pre-first-call values and leaves no recorded
vote for that voter on that item (the second call is exactly the toggle-off
removal of the first). -/
theorem toggle_twice_restores
    (db : DB) (c : Cache) (u vid : String) (t : Int) (now now2 : Nat) (v : QueueVideo)
    (hv : findActiveVideo db vid = some v) (hu : uniqueVideoIds db)
    (ho : lookupVote db vid u = none) (ht : t = 1 ∨ t = -1) :
    ∃ w : QueueVideo,
      findVideoById (voteVideo (voteVideo db c u vid t now).2.1
          (voteVideo db c u vid t now).2.2 u vid t now2).2.1 vid = some w ∧
      w.upvotes = v.upvotes ∧ w.downvotes = v.downvotes ∧
      lookupVote (voteVideo (voteVideo db c u vid t now).2.1
          (voteVideo db c u vid t now).2.2 u vid t now2).2.1 vid u = none := by
  rcases ht with rfl | rfl
  · have hch1 : voteChanges (lookupVote db vid u) 1 = (1, 0, 1) := by rw [ho]; decide
    have core1 := voteVideo_core db c u vid 1 now v hv hu 1 0 1 hch1
    rw [core1]
    dsimp only
    have hact1 := findActiveVideo_core db vid u 1 1 0 v hv
    have hu1 := uniqueVideoIds_core db vid u 1 1 0 hu
    have hlv1 : lookupVote (applyVoteCounts (applyVoteRowDb db vid u 1) vid 1 0) vid u =
        some 1 := by
      rw [voteVideo_lookup_core]
      decide
    have hch2 : voteChanges
        (lookupVote (applyVoteCounts (applyVoteRowDb db vid u 1) vid 1 0) vid u) 1 =
        (-1, 0, 0) := by
      rw [hlv1]; decide
    rw [voteVideo_core _ _ u vid 1 now2 _ hact1 hu1 (-1) 0 0 hch2]
    dsimp only
    have hfind1 : findVideoById (applyVoteCounts (applyVoteRowDb db vid u 1) vid 1 0) vid =
        some (bumpCounts 1 0 v) :=
      findVideoById_of_findActive _ vid _ hu1 hact1
    have hfind1' : findVideoById
        (applyVoteRowDb (applyVoteCounts (applyVoteRowDb db vid u 1) vid 1 0) vid u 0)
          vid = some (bumpCounts 1 0 v) := by
      unfold findVideoById
      rw [applyVoteRowDb_queue]
      exact hfind1
    have hfind2 := findVideoById_applyVoteCounts_self _ vid (-1) 0 _ hfind1'
    refine ⟨bumpCounts (-1) 0 (bumpCounts 1 0 v), hfind2, ?_, ?_, ?_⟩
    · simp [bumpCounts]
    · simp [bumpCounts]
    · rw [voteVideo_lookup_core]
      simp
  · have hch1 : voteChanges (lookupVote db vid u) (-1) = (0, 1, -1) := by rw [ho]; decide
    have core1 := voteVideo_core db c u vid (-1) now v hv hu 0 1 (-1) hch1
    rw [core1]
    dsimp only
    have hact1 := findActiveVideo_core db vid u (-1) 0 1 v hv
    have hu1 := uniqueVideoIds_core db vid u (-1) 0 1 hu
    have hlv1 : lookupVote (applyVoteCounts (applyVoteRowDb db vid u (-1)) vid 0 1) vid u =
        some (-1) := by
      rw [voteVideo_lookup_core]
      decide
    have hch2 : voteChanges
        (lookupVote (applyVoteCounts (applyVoteRowDb db vid u (-1)) vid 0 1) vid u) (-1) =
        (0, -1, 0) := by
      rw [hlv1]; decide
    rw [voteVideo_core _ _ u vid (-1) now2 _ hact1 hu1 0 (-1) 0 hch2]
    dsimp only
    have hfind1 : findVideoById (applyVoteCounts (applyVoteRowDb db vid u (-1)) vid 0 1)
        vid = some (bumpCounts 0 1 v) :=
      findVideoById_of_findActive _ vid _ hu1 hact1
    have hfind1' : findVideoById
        (applyVoteRowDb (applyVoteCounts (applyVoteRowDb db vid u (-1)) vid 0 1) vid u 0)
          vid = some (bumpCounts 0 1 v) := by
      unfold findVideoById
      rw [applyVoteRowDb_queue]
      exact hfind1
    have hfind2 := findVideoById_applyVoteCounts_self _ vid 0 (-1) _ hfind1'
    refine ⟨bumpCounts 0 (-1) (bumpCounts 0 1 v), hfind2, ?_, ?_, ?_⟩
    · simp [bumpCounts]
    · simp [bumpCounts]
    · rw [voteVideo_lookup_core]
      simp

/-- Witness for the amended C8 at a concrete state. -/
theorem toggle_twice_restores_witness :
    ∃ w : QueueVideo,
      findVideoById (voteVideo (voteVideo dbAB emptyCache "u" "a" 1 5).2.1
          (voteVideo dbAB emptyCache "u" "a" 1 5).2.2 "u" "a" 1 6).2.1 "a" = some w ∧
      w.upvotes = vidA.upvotes ∧ w.downvotes = vidA.downvotes ∧
      lookupVote (voteVideo (voteVideo dbAB emptyCache "u" "a" 1 5).2.1
          (voteVideo dbAB emptyCache "u" "a" 1 5).2.2 "u" "a" 1 6).2.1 "a" "u" = none :=
  toggle_twice_restores dbAB emptyCache "u" "a" 1 5 6 vidA (by decide) (by decide)
    (by decide) (Or.inl rfl)

/-- C5 counterexample: a transient failure during the queue re-sync — after
the Redis vote write, before COMMIT — returns an error and rolls the store
back, yet the cache's per-user vote index already records the vote: the
three effects of a failing `voteVideo` are not all left as they were. -/
theorem voteVideo_failure_partial_cache :
    (voteVideoRun dbAB emptyCache "u" "a" 1 7 (some 5)).1 = .error "transient" ∧
    (voteVideoRun dbAB emptyCache "u" "a" 1 7 (some 5)).2.1 = dbAB ∧
    (voteVideoRun dbAB emptyCache "u" "a" 1 7 (some 5)).2.2 ≠ emptyCache ∧
    getUserVoteCache (voteVideoRun dbAB emptyCache "u" "a" 1 7 (some 5)).2.2 "u" "a" =
      some 1 := by decide

/-- C5 (amended): the store effects (vote row and counters) form one
transaction: whenever `voteVideo` fails — precondition failure or a
transient failure at any point — the store is returned unchanged; cache
writes issued before the failure are not reverted. -/
theorem voteVideo_failure_rolls_back_store
    (db : DB) (c : Cache) (u vid : String) (t : Int) (now : Nat)
    (failAt : Option Nat) (e : String) (db' : DB) (c' : Cache)
    (h : voteVideoRun db c u vid t now failAt = (.error e, db', c')) :
    db' = db := by
  unfold voteVideoRun at h
  dsimp only at h
  repeat' split at h
  all_goals simp only [Prod.mk.injEq] at h
  all_goals first
    | exact h.2.1.symm
    | exact absurd h.1 (fun hc => Except.noConfusion hc)

/-- Witness for the amended C5: the store after the failing run above is the
original store. -/
theorem voteVideo_failure_rolls_back_store_witness :
    (voteVideoRun dbAB emptyCache "u" "a" 1 7 (some 5)).2.1 = dbAB :=
  voteVideo_failure_rolls_back_store dbAB emptyCache "u" "a" 1 7 (some 5)
    "transient" (voteVideoRun dbAB emptyCache "u" "a" 1 7 (some 5)).2.1
    (voteVideoRun dbAB emptyCache "u" "a" 1 7 (some 5)).2.2 (by decide)

theorem getLastUpdate_updateRoomQueue (c : Cache) (rid : String)
    (videos : List QRow) (now : Nat) :
    getLastUpdate (updateRoomQueue c rid videos now) rid = now := by
  unfold updateRoomQueue
  exact getLastUpdate_setLastUpdate _ rid now

theorem getLastUpdate_syncQueueToRedis (db : DB) (rid : String) (c : Cache) (now : Nat) :
    getLastUpdate (syncQueueToRedisOp db rid c now) rid = now :=
  getLastUpdate_updateRoomQueue _ rid _ now

/-- C4 counterexample: with room `r`'s cursor at 5, a successful vote at
wall-clock millisecond 5 (`Date.now()` unchanged) leaves the cursor at 5 —
no strict increase — and a subsequent sync presenting the pre-mutation
cursor 5 reports no updates. -/
theorem cursor_not_strictly_increased :
    (voteVideo dbAB cache5 "u" "a" 1 5).1 = .ok (some (bumpCounts 1 0 vidA)) ∧
    getLastUpdate cache5 "r" = 5 ∧
    getLastUpdate (voteVideo dbAB cache5 "u" "a" 1 5).2.2 "r" = 5 ∧
    (syncRoom (voteVideo dbAB cache5 "u" "a" 1 5).2.1
      (voteVideo dbAB cache5 "u" "a" 1 5).2.2 "r" "u" 5 9).1 = .noUpdates 5 := by decide

/-- C4 (amended): every successful mutating operation sets the room's cursor
to the wall-clock time `now` of the call.  Consequently the cursor never
decreases as long as the clock does not run behind the stored cursor, and a
mutation strictly increases it exactly when the clock has advanced past the
stored cursor — in which case a subsequent sync presenting the pre-mutation
cursor reports updates.  A mutation within the same millisecond leaves the
cursor unchanged. -/
theorem cursor_follows_wall_clock :
    (∀ (db : DB) (c : Cache) (u vid : String) (t : Int) (now : Nat) (v : QueueVideo)
      (w : Option QueueVideo) (db' : DB) (c' : Cache),
      findActiveVideo db vid = some v →
      voteVideo db c u vid t now = (.ok w, db', c') →
      getLastUpdate c' v.room_id = now ∧
      (getLastUpdate c v.room_id ≤ now →
        getLastUpdate c v.room_id ≤ getLastUpdate c' v.room_id) ∧
      (getLastUpdate c v.room_id < now →
        getLastUpdate c v.room_id < getLastUpdate c' v.room_id ∧
        ∀ now2 : Nat, ∃ cv q mem,
          (syncRoom db' c' v.room_id u (getLastUpdate c v.room_id) now2).1 =
            .updates cv q mem now)) ∧
    (∀ (db : DB) (c : Cache) (rid aid ts : String) (now : Nat)
      (x : Option QRow) (db' : DB) (c' : Cache),
      playNextVideo db c rid aid ts now = (.ok x, db', c') →
      getLastUpdate c' rid = now) ∧
    (∀ (db : DB) (c : Cache) (rid uid url nid ts2 : String) (now : Nat)
      (row : QueueVideo) (db' : DB) (c' : Cache),
      addVideoToQueue db c rid uid url nid ts2 now = (.ok row, db', c') →
      getLastUpdate c' rid = now) := by
  refine ⟨?_, ?_, ?_⟩
  · intro db c u vid t now v w db' c' hv h
    rw [voteVideo_success_shape db c u vid t now v hv] at h
    injection h with h1 h2
    injection h2 with h2a h2b
    have hlast : getLastUpdate c' v.room_id = now := by
      rw [← h2b]
      exact getLastUpdate_syncQueueToRedis _ _ _ now
    refine ⟨hlast, ?_, ?_⟩
    · intro hle
      rw [hlast]
      exact hle
    · intro hlt
      refine ⟨by rw [hlast]; exact hlt, ?_⟩
      intro now2
      unfold syncRoom
      dsimp only
      rw [hlast, if_neg (by omega : ¬ now ≤ getLastUpdate c v.room_id)]
      exact ⟨_, _, _, rfl⟩
  · intro db c rid aid ts now x db' c' h
    unfold playNextVideo at h
    dsimp only at h
    repeat' split at h
    all_goals simp only [Prod.mk.injEq] at h
    all_goals first
      | exact absurd h.1 (fun hc => Except.noConfusion hc)
      | (rw [← h.2.2]
         exact getLastUpdate_syncQueueToRedis _ _ _ now)
  · intro db c rid uid url nid ts2 now row db' c' h
    unfold addVideoToQueue at h
    dsimp only at h
    repeat' split at h
    all_goals simp only [Prod.mk.injEq] at h
    all_goals first
      | exact absurd h.1 (fun hc => Except.noConfusion hc)
      | (rw [← h.2.2]
         exact getLastUpdate_syncQueueToRedis _ _ _ now)

/-- Witness for the amended C4 at a concrete state: a vote at time 9 on a
room whose cursor stands at 5. -/
theorem cursor_follows_wall_clock_witness :
    getLastUpdate (voteVideo dbAB cache5 "u" "a" 1 9).2.2 "r" = 9 :=
  (cursor_follows_wall_clock.1 dbAB cache5 "u" "a" 1 9 vidA
    (voteVideo dbAB cache5 "u" "a" 1 9).1.toOption.join
    (voteVideo dbAB cache5 "u" "a" 1 9).2.1
    (voteVideo dbAB cache5 "u" "a" 1 9).2.2 (by decide) (by decide)).1

theorem insertionSort_eq_nil {α : Type} (r : α → α → Prop) [DecidableRel r]
    (l : List α) (h : List.insertionSort r l = []) : l = [] := by
  have hp := List.perm_insertionSort r l
  rw [h] at hp
  exact hp.symm.eq_nil

theorem findRoom_setRoomCurrentVideo (db : DB) (rid : String) (x : Option String)
    (room : RoomRow) (h : findRoom db rid = some room) :
    findRoom (setRoomCurrentVideo db rid x) rid =
      some { room with current_video_id := x } := by
  have hid : room.id = rid := by simpa using List.find?_some h
  unfold findRoom setRoomCurrentVideo
  have hp : ∀ w : RoomRow,
      (fun q : RoomRow => decide (q.id = rid))
          ((fun q : RoomRow => if q.id = rid then { q with current_video_id := x } else q)
            w) =
        (fun q : RoomRow => decide (q.id = rid)) w := by
    intro w
    by_cases hw : w.id = rid <;> simp [hw]
  dsimp only
  rw [find?_map_invariant _ _ hp]
  unfold findRoom at h
  rw [h, Option.map_some', if_pos hid]

theorem activeRows_queue_users (d d' : DB) (rid : String)
    (hq : d'.queue_videos = d.queue_videos) (hu : d'.users = d.users) :
    activeRows d' rid = activeRows d rid := by
  unfold activeRows
  rw [hq, hu]

theorem activeRows_mark_nil (d : DB) (rid : String) (ts : String)
    (h : activeRows d rid = []) : activeRows (markCurrentPlayed d rid ts) rid = [] := by
  unfold activeRows at h ⊢
  unfold markCurrentPlayed
  rw [show ({ d with queue_videos := d.queue_videos.map (fun v =>
      if v.room_id = rid && v.is_current then
        { v with is_current := false, is_played := true, played_at := some ts }
      else v) } : DB).queue_videos = d.queue_videos.map (fun v =>
      if v.room_id = rid && v.is_current then
        { v with is_current := false, is_played := true, played_at := some ts }
      else v) from rfl]
  rw [List.filterMap_map]
  rw [List.filterMap_eq_nil_iff] at h ⊢
  intro v hv
  have hv0 := h v hv
  by_cases hc : (v.room_id = rid && v.is_current) = true
  · simp only [Function.comp, hc, if_true]
    simp
  · simp only [Bool.not_eq_true] at hc
    simp only [Function.comp, hc, Bool.false_eq_true, if_false]
    exact hv0

/-- C6: `playNextVideo` fails with the Unauthorized error exactly when the
requester is not the room's administrator (a missing room included); for the
administrator it succeeds, an empty eligible queue yields the explicit
no-item result with the room's current item emptied, and a further advance
after the queue empties again yields no item without error. -/
theorem playNextVideo_auth_and_empty :
    (∀ (db : DB) (c : Cache) (rid aid ts : String) (now : Nat),
      ((findRoom db rid = none ∨
          ∃ room, findRoom db rid = some room ∧ room.admin_id ≠ aid) →
        playNextVideo db c rid aid ts now =
          (.error "Unauthorized: Only room admin can control playback", db, c)) ∧
      (∀ room, findRoom db rid = some room → room.admin_id = aid →
        ∃ x db' c', playNextVideo db c rid aid ts now = (.ok x, db', c'))) ∧
    (∀ (db : DB) (c : Cache) (rid aid ts : String) (now : Nat) (room : RoomRow),
      findRoom db rid = some room → room.admin_id = aid →
      sortedActiveRows (markCurrentPlayed db rid ts) rid = [] →
      ∃ db' c', playNextVideo db c rid aid ts now = (.ok none, db', c') ∧
        (∃ room', findRoom db' rid = some room' ∧ room'.current_video_id = none) ∧
        db'.queue_videos.filter (fun v => v.room_id = rid && v.is_current) = []) ∧
    (∀ (db : DB) (c : Cache) (rid aid ts ts' : String) (now now' : Nat)
      (db' : DB) (c' : Cache),
      playNextVideo db c rid aid ts now = (.ok none, db', c') →
      (playNextVideo db' c' rid aid ts' now').1 = .ok none) := by
  refine ⟨?_, ?_, ?_⟩
  · intro db c rid aid ts now
    constructor
    · intro h
      unfold playNextVideo
      rcases h with h | ⟨room, hr, hne⟩
      · rw [h]
      · rw [hr]
        dsimp only
        rw [if_pos hne]
    · intro room hr ha
      unfold playNextVideo
      rw [hr]
      dsimp only
      rw [if_neg (by rw [ha]; exact fun hc => hc rfl)]
      cases hh : (sortedActiveRows (markCurrentPlayed db rid ts) rid).head? with
      | some r => exact ⟨_, _, _, rfl⟩
      | none => exact ⟨_, _, _, rfl⟩
  · intro db c rid aid ts now room hr ha hempty
    unfold playNextVideo
    rw [hr]
    dsimp only
    rw [if_neg (by rw [ha]; exact fun hc => hc rfl)]
    rw [hempty]
    refine ⟨_, _, rfl, ?_, ?_⟩
    · refine ⟨{ room with current_video_id := none }, ?_, rfl⟩
      have hq : (markCurrentPlayed db rid ts).rooms = db.rooms := rfl
      have hr1 : findRoom (markCurrentPlayed db rid ts) rid = some room := by
        unfold findRoom
        rw [hq]
        exact hr
      exact findRoom_setRoomCurrentVideo _ rid none room hr1
    · have hq : (setRoomCurrentVideo (markCurrentPlayed db rid ts) rid none).queue_videos =
          (markCurrentPlayed db rid ts).queue_videos := rfl
      rw [hq]
      unfold markCurrentPlayed
      apply filter_map_false
      intro v _
      by_cases hc : (v.room_id = rid && v.is_current) = true
      · simp [hc]
      · simp only [Bool.not_eq_true] at hc
        simp [hc]
  · intro db c rid aid ts ts' now now' db' c' h
    unfold playNextVideo at h
    cases hr : findRoom db rid with
    | none =>
      rw [hr] at h
      dsimp only at h
      simp only [Prod.mk.injEq] at h
      exact absurd h.1 (fun hc => Except.noConfusion hc)
    | some room =>
      rw [hr] at h
      dsimp only at h
      by_cases ha : room.admin_id ≠ aid
      · rw [if_pos ha] at h
        simp only [Prod.mk.injEq] at h
        exact absurd h.1 (fun hc => Except.noConfusion hc)
      · rw [if_neg ha] at h
        cases hh : (sortedActiveRows (markCurrentPlayed db rid ts) rid).head? with
        | some r =>
          rw [hh] at h
          dsimp only at h
          simp only [Prod.mk.injEq] at h
          exact absurd h.1 (fun hc => Option.noConfusion (Except.ok.inj hc))
        | none =>
          rw [hh] at h
          dsimp only at h
          simp only [Prod.mk.injEq] at h
          obtain ⟨-, hdb, -⟩ := h
          have hadm : room.admin_id = aid := by
            by_contra hc
            exact ha hc
          have hr1 : findRoom (markCurrentPlayed db rid ts) rid = some room := by
            unfold findRoom
            exact hr
          have hr' : findRoom db' rid = some { room with current_video_id := none } := by
            rw [← hdb]
            exact findRoom_setRoomCurrentVideo _ rid none room hr1
          have hempty : activeRows (markCurrentPlayed db rid ts) rid = [] :=
            insertionSort_eq_nil _ _
              (by
                cases hh2 : sortedActiveRows (markCurrentPlayed db rid ts) rid with
                | nil => exact hh2
                | cons a l => rw [hh2] at hh; cases hh)
          have hempty' : activeRows (markCurrentPlayed db' rid ts') rid = [] := by
            have hq2 : db'.queue_videos = (markCurrentPlayed db rid ts).queue_videos := by
              rw [← hdb]; rfl
            have hu2 : db'.users = (markCurrentPlayed db rid ts).users := by
              rw [← hdb]; rfl
            have he1 : activeRows db' rid = [] := by
              rw [activeRows_queue_users (markCurrentPlayed db rid ts) db' rid hq2 hu2]
              exact hempty
            exact activeRows_mark_nil db' rid ts' he1
          unfold playNextVideo
          rw [hr']
          dsimp only
          rw [if_neg (by rw [hadm]; exact fun hc => hc rfl)]
          unfold sortedActiveRows
          rw [hempty']
          rfl

theorem head?_mem {α : Type} (l : List α) (a : α) (h : l.head? = some a) : a ∈ l := by
  cases l with
  | nil => cases h
  | cons x t =>
    simp only [List.head?_cons, Option.some.injEq] at h
    rw [← h]
    exact List.mem_cons_self _ _

theorem length_filter_map_le_pred {α : Type} (g : α → α) (p q : α → Bool) :
    ∀ l : List α, (∀ a ∈ l, p (g a) = true → q a = true) →
      ((l.map g).filter p).length ≤ (l.filter q).length := by
  intro l
  induction l with
  | nil => intro _; simp
  | cons a t ih =>
    intro h
    have ht := ih (fun v hv => h v (by simp [hv]))
    by_cases hp : p (g a) = true
    · have hq := h a (by simp) hp
      simp [List.filter_cons, hp, hq, Nat.succ_le_succ ht]
    · simp only [Bool.not_eq_true] at hp
      by_cases hq : q a = true
      · simp [List.filter_cons, hp, hq]
        exact le_trans ht (Nat.le_succ _)
      · simp only [Bool.not_eq_true] at hq
        simp [List.filter_cons, hp, hq, ht]

theorem atMostOneCurrent_of_queue_eq (db db' : DB) (rid : String)
    (hq : db'.queue_videos = db.queue_videos) (h : atMostOneCurrent db rid) :
    atMostOneCurrent db' rid := by
  unfold atMostOneCurrent at h ⊢
  rw [hq]
  exact h

theorem bumpCounts_room (vid : String) (du dd : Int) (w : QueueVideo) :
    (if w.id = vid then bumpCounts du dd w else w).room_id = w.room_id := by
  by_cases h : w.id = vid <;> simp [h, bumpCounts]

theorem bumpCounts_current (vid : String) (du dd : Int) (w : QueueVideo) :
    (if w.id = vid then bumpCounts du dd w else w).is_current = w.is_current := by
  by_cases h : w.id = vid <;> simp [h, bumpCounts]

theorem atMostOneCurrent_core (db : DB) (vid u : String) (fv du dd : Int) (rid : String)
    (h : atMostOneCurrent db rid) :
    atMostOneCurrent (applyVoteCounts (applyVoteRowDb db vid u fv) vid du dd) rid := by
  unfold atMostOneCurrent at h ⊢
  rw [applyVoteCounts_queue_eq, applyVoteRowDb_queue]
  rw [length_filter_map_congr_mem _ _ _ ?_]
  · exact h
  · intro a _
    dsimp only
    rw [bumpCounts_room vid du dd a, bumpCounts_current vid du dd a]

theorem activeRows_mem (db : DB) (rid : String) (r : QRow)
    (h : r ∈ activeRows db rid) :
    r.1 ∈ db.queue_videos ∧ r.1.room_id = rid ∧ r.1.is_played = false := by
  unfold activeRows at h
  rcases List.mem_filterMap.mp h with ⟨v, hv, hf⟩
  by_cases hc : (v.room_id = rid && v.is_played = false) = true
  · rw [if_pos hc] at hf
    cases hmap : aget db.users v.added_by with
    | none => rw [hmap] at hf; cases hf
    | some uname =>
      rw [hmap] at hf
      rw [Option.map_some'] at hf
      cases hf
      simp only [Bool.and_eq_true, decide_eq_true_eq] at hc
      exact ⟨hv, hc.1, hc.2⟩
  · rw [if_neg hc] at hf
    cases hf

theorem filter_current_markCurrentPlayed_self (db : DB) (rid ts : String) :
    (markCurrentPlayed db rid ts).queue_videos.filter
      (fun v => v.room_id = rid && v.is_current) = [] := by
  have hq : (markCurrentPlayed db rid ts).queue_videos =
      db.queue_videos.map (fun v =>
        if v.room_id = rid && v.is_current then
          { v with is_current := false, is_played := true, played_at := some ts }
        else v) := rfl
  rw [hq]
  apply filter_map_false
  intro v _
  by_cases hc : (v.room_id = rid && v.is_current) = true
  · simp [hc]
  · simp only [Bool.not_eq_true] at hc
    simp [hc]

theorem atMostOneCurrent_markCurrentPlayed (db : DB) (rid' ts : String) (rid : String)
    (h : atMostOneCurrent db rid) :
    atMostOneCurrent (markCurrentPlayed db rid' ts) rid := by
  unfold atMostOneCurrent at h ⊢
  have hq : (markCurrentPlayed db rid' ts).queue_videos =
      db.queue_videos.map (fun v =>
        if v.room_id = rid' && v.is_current then
          { v with is_current := false, is_played := true, played_at := some ts }
        else v) := rfl
  rw [hq]
  refine le_trans (length_filter_map_le_pred _ _ _ _ ?_) h
  intro a _ hp
  by_cases hc : (a.room_id = rid' && a.is_current) = true
  · rw [if_pos hc] at hp
    simp at hp
  · rw [if_neg hc] at hp
    exact hp

theorem uniqueVideoIds_markCurrentPlayed (db : DB) (rid' ts : String)
    (hu : uniqueVideoIds db) : uniqueVideoIds (markCurrentPlayed db rid' ts) := by
  unfold uniqueVideoIds at hu ⊢
  have hq : (markCurrentPlayed db rid' ts).queue_videos =
      db.queue_videos.map (fun v =>
        if v.room_id = rid' && v.is_current then
          { v with is_current := false, is_played := true, played_at := some ts }
        else v) := rfl
  rw [hq, List.pairwise_map]
  refine hu.imp ?_
  intro a b hab
  have hga : (if a.room_id = rid' && a.is_current then
      { a with is_current := false, is_played := true, played_at := some ts }
    else a).id = a.id := by
    by_cases hc : (a.room_id = rid' && a.is_current) = true <;> simp [hc]
  have hgb : (if b.room_id = rid' && b.is_current then
      { b with is_current := false, is_played := true, played_at := some ts }
    else b).id = b.id := by
    by_cases hc : (b.room_id = rid' && b.is_current) = true <;> simp [hc]
  rw [hga, hgb]
  exact hab

theorem filter_id_le_one (l : List QueueVideo) (nid : String)
    (hu : l.Pairwise (fun a b => a.id ≠ b.id)) :
    (l.filter (fun v => v.id = nid)).length ≤ 1 := by
  apply length_filter_le_one
  refine hu.imp ?_
  intro a b hab h1 h2
  simp only [decide_eq_true_eq] at h1 h2
  exact hab (h1.trans h2.symm)

theorem atMostOneCurrent_setCurrentFlag_self (db1 : DB) (nid rid : String)
    (hzero : db1.queue_videos.filter (fun v => v.room_id = rid && v.is_current) = [])
    (hun : uniqueVideoIds db1) :
    atMostOneCurrent (setCurrentFlag db1 nid) rid := by
  unfold atMostOneCurrent setCurrentFlag
  dsimp only
  refine le_trans (length_filter_map_le_pred _ _ (fun v => v.id = nid) _ ?_)
    (filter_id_le_one _ nid hun)
  intro a ha hp
  by_cases hc : a.id = nid
  · simp [hc]
  · rw [if_neg hc] at hp
    have := List.filter_eq_nil_iff.mp hzero a ha
    rw [hp] at this
    exact absurd rfl this

theorem atMostOneCurrent_setCurrentFlag_other (db1 : DB) (nid rid' rid : String)
    (hne : rid ≠ rid') (vrow : QueueVideo) (hmem : vrow ∈ db1.queue_videos)
    (hid : vrow.id = nid) (hroom : vrow.room_id = rid')
    (hun : uniqueVideoIds db1) (h : atMostOneCurrent db1 rid) :
    atMostOneCurrent (setCurrentFlag db1 nid) rid := by
  unfold atMostOneCurrent at h ⊢
  unfold setCurrentFlag
  dsimp only
  rw [length_filter_map_congr_mem _ _ _ ?_]
  · exact h
  · intro a ha
    by_cases hc : a.id = nid
    · have haeq : a = vrow := by
        by_contra hne2
        exact pairwise_mem_ne (fun x y hxy hc2 => hxy hc2.symm) _ hun a ha vrow hmem
          hne2 (hc.trans hid.symm)
      rw [if_pos hc]
      subst haeq
      rw [hroom]
      simp [Ne.symm hne]
    · rw [if_neg hc]

theorem atMostOneCurrent_playNextVideo (db : DB) (c : Cache) (rid' aid ts : String)
    (now : Nat) (rid : String) (hu : uniqueVideoIds db) (h : atMostOneCurrent db rid) :
    atMostOneCurrent (playNextVideo db c rid' aid ts now).2.1 rid := by
  unfold playNextVideo
  dsimp only
  have h1 := atMostOneCurrent_markCurrentPlayed db rid' ts rid h
  have hu1 := uniqueVideoIds_markCurrentPlayed db rid' ts hu
  split
  · exact h
  · split
    · exact h
    · split
      · rename_i r hr
        apply atMostOneCurrent_of_queue_eq (setCurrentFlag (markCurrentPlayed db rid' ts) r.1.id) _ rid rfl
        have hrmem : r ∈ activeRows (markCurrentPlayed db rid' ts) rid' :=
          (List.perm_insertionSort queueRel _).mem_iff.mp
            (head?_mem _ r hr)
        rcases activeRows_mem _ rid' r hrmem with ⟨hmem, hroom, _⟩
        by_cases hcase : rid = rid'
        · subst hcase
          exact atMostOneCurrent_setCurrentFlag_self _ r.1.id rid
            (filter_current_markCurrentPlayed_self db rid ts) hu1
        · exact atMostOneCurrent_setCurrentFlag_other _ r.1.id rid' rid hcase r.1 hmem
            rfl hroom hu1 h1
      · exact atMostOneCurrent_of_queue_eq (markCurrentPlayed db rid' ts) _ rid rfl h1

theorem atMostOneCurrent_addVideoToQueue (db : DB) (c : Cache)
    (rid' uid url nid ts2 : String) (now : Nat) (rid : String)
    (h : atMostOneCurrent db rid) :
    atMostOneCurrent (addVideoToQueue db c rid' uid url nid ts2 now).2.1 rid := by
  unfold addVideoToQueue
  dsimp only
  repeat' split
  all_goals first
    | exact h
    | (unfold atMostOneCurrent at h ⊢
       dsimp only
       rw [List.filter_append]
       rw [show ∀ row : QueueVideo, row.is_current = false →
           List.filter (fun v => v.room_id = rid && v.is_current) [row] = []
         from fun row hrow => by simp [List.filter_cons, hrow]]
       · simpa using h
       · rfl)

theorem atMostOneCurrent_voteVideoRun (db : DB) (c : Cache) (u vid : String)
    (t : Int) (now : Nat) (failAt : Option Nat) (rid : String)
    (h : atMostOneCurrent db rid) :
    atMostOneCurrent (voteVideoRun db c u vid t now failAt).2.1 rid := by
  unfold voteVideoRun
  dsimp only
  repeat' split
  all_goals first
    | exact h
    | exact atMostOneCurrent_core db vid u _ _ _ rid h

/-- C7: every modelled operation (vote — with or without transient failure —
advance, add) preserves the invariant that at most one queue item of a room
is marked current, and a played or absent item is immutable: `voteVideo` on
it fails with the not-found-or-played error and leaves the store and cache
untouched. -/
theorem room_invariants_preserved :
    (∀ (db : DB) (c : Cache) (op : Op) (rid : String),
      uniqueVideoIds db → atMostOneCurrent db rid →
      atMostOneCurrent (applyOp (db, c) op).1 rid) ∧
    (∀ (db : DB) (c : Cache) (u vid : String) (t : Int) (now : Nat),
      findActiveVideo db vid = none →
      voteVideo db c u vid t now =
        (.error "Video not found or already played", db, c)) := by
  constructor
  · intro db c op rid hu h
    cases op with
    | vote u vid t now failAt => exact atMostOneCurrent_voteVideoRun db c u vid t now failAt rid h
    | advance rid' aid ts now => exact atMostOneCurrent_playNextVideo db c rid' aid ts now rid hu h
    | add rid' uid url nid ts2 now =>
      exact atMostOneCurrent_addVideoToQueue db c rid' uid url nid ts2 now rid h
  · intro db c u vid t now hv
    exact voteVideo_notFound db c u vid t now hv

/-- Witness for C7 at a concrete state: one advance step and one vote on a
played item. -/
theorem room_invariants_preserved_witness :
    atMostOneCurrent (applyOp (dbAB, emptyCache) (Op.advance "r" "adm" "9" 9)).1 "r" ∧
    voteVideo dbPlayed emptyCache "u" "p" 1 5 =
      (.error "Video not found or already played", dbPlayed, emptyCache) :=
  ⟨room_invariants_preserved.1 dbAB emptyCache (Op.advance "r" "adm" "9" 9) "r"
    (by decide) (by decide),
   room_invariants_preserved.2 dbPlayed emptyCache "u" "p" 1 5 (by decide)⟩

/-- Witness for C6 at a concrete state: the administrator advances a room
with an empty queue. -/
theorem playNextVideo_auth_and_empty_witness :
    ∃ db' c', playNextVideo dbNoQ emptyCache "r" "adm" "t" 5 = (.ok none, db', c') ∧
      (∃ room', findRoom db' "r" = some room' ∧ room'.current_video_id = none) ∧
      db'.queue_videos.filter (fun v => v.room_id = "r" && v.is_current) = [] :=
  playNextVideo_auth_and_empty.2.1 dbNoQ emptyCache "r" "adm" "t" 5 roomR
    (by decide) (by decide) (by decide)

/-- C9: the sync handler answers `has_updates = false` with the current
cursor, touching nothing else, whenever the room's cursor is not strictly
greater than the client's — and the cheap answer depends only on the cursor
value; otherwise it assembles and returns the current video, the queue
annotated with the calling voter's vote on each item, the member list, and
the cursor read at the start. -/
theorem syncRoom_cursor_gate :
    (∀ (db : DB) (c : Cache) (rid uid : String) (cursor now : Nat),
      getLastUpdate c rid ≤ cursor →
      syncRoom db c rid uid cursor now = (.noUpdates (getLastUpdate c rid), c) ∧
      ∀ (db2 : DB) (c2 : Cache), getLastUpdate c2 rid = getLastUpdate c rid →
        (syncRoom db2 c2 rid uid cursor now).1 = (syncRoom db c rid uid cursor now).1) ∧
    (∀ (db : DB) (c : Cache) (rid uid : String) (cursor now : Nat),
      cursor < getLastUpdate c rid →
      syncRoom db c rid uid cursor now =
        (.updates (getCurrentVideoRS db c rid now).1
          ((getRoomQueueRS db (getCurrentVideoRS db c rid now).2 rid now).1.map
            (fun r => (r, getUserVoteRS db
              (getRoomQueueRS db (getCurrentVideoRS db c rid now).2 rid now).2 uid r.1.id)))
          (getRoomMembersCache
            (getRoomQueueRS db (getCurrentVideoRS db c rid now).2 rid now).2 rid)
          (getLastUpdate c rid),
         (getRoomQueueRS db (getCurrentVideoRS db c rid now).2 rid now).2)) := by
  constructor
  · intro db c rid uid cursor now hle
    constructor
    · unfold syncRoom
      rw [if_pos hle]
    · intro db2 c2 h2
      unfold syncRoom
      rw [h2, if_pos hle, if_pos hle]
  · intro db c rid uid cursor now hlt
    unfold syncRoom
    rw [if_neg (by omega)]

/-- Witness for C9 at a concrete state: a poll presenting an up-to-date
cursor, and a poll presenting a stale one. -/
theorem syncRoom_cursor_gate_witness :
    syncRoom dbAB cache5 "r" "u" 7 9 = (.noUpdates 5, cache5) ∧
    syncRoom dbAB cache5 "r" "u" 3 9 =
      (.updates (getCurrentVideoRS dbAB cache5 "r" 9).1
        ((getRoomQueueRS dbAB (getCurrentVideoRS dbAB cache5 "r" 9).2 "r" 9).1.map
          (fun r => (r, getUserVoteRS dbAB
            (getRoomQueueRS dbAB (getCurrentVideoRS dbAB cache5 "r" 9).2 "r" 9).2 "u" r.1.id)))
        (getRoomMembersCache
          (getRoomQueueRS dbAB (getCurrentVideoRS dbAB cache5 "r" 9).2 "r" 9).2 "r")
        (getLastUpdate cache5 "r"),
       (getRoomQueueRS dbAB (getCurrentVideoRS dbAB cache5 "r" 9).2 "r" 9).2) :=
  ⟨(syncRoom_cursor_gate.1 dbAB cache5 "r" "u" 7 9 (by decide)).1,
   syncRoom_cursor_gate.2 dbAB cache5 "r" "u" 3 9 (by decide)⟩

theorem prefix_chars_mem : ∀ (a cs : List Char), a.isPrefixOf cs = true →
    ∀ x ∈ a, x ∈ cs := by
  intro a
  induction a with
  | nil =>
    intro cs _ x hx
    cases hx
  | cons y t ih =>
    intro cs h x hx
    cases cs with
    | nil => cases h
    | cons z cs2 =>
      unfold List.isPrefixOf at h
      simp only [Bool.and_eq_true, beq_iff_eq] at h
      rcases List.mem_cons.mp hx with hx1 | hx1
      · rw [hx1, h.1]
        exact List.mem_cons_self _ _
      · exact List.mem_cons_of_mem _ (ih cs2 h.2 x hx1)

theorem tryAltsAt_none (alts : List (List Char)) (cs : List Char)
    (h : ∀ a ∈ alts, ∃ x ∈ a, x ∉ cs) : tryAltsAt alts cs = none := by
  induction alts with
  | nil => rfl
  | cons a rest ih =>
    unfold tryAltsAt
    cases ha : a.isPrefixOf cs with
    | true =>
      rcases h a (by simp) with ⟨x, hxa, hxcs⟩
      exact absurd (prefix_chars_mem a cs ha x hxa) hxcs
    | false =>
      simp only [Bool.false_eq_true, if_false]
      exact ih (fun b hb => h b (by simp [hb]))

theorem scanAlts_none (alts : List (List Char)) :
    ∀ cs : List Char, (∀ a ∈ alts, ∃ x ∈ a, x ∉ cs) → scanAlts alts cs = none := by
  intro cs
  induction cs with
  | nil => intro _; rfl
  | cons ch t ih =>
    intro h
    unfold scanAlts
    rw [tryAltsAt_none alts (ch :: t) h]
    apply ih
    intro a ha
    rcases h a ha with ⟨x, hxa, hxcs⟩
    exact ⟨x, hxa, fun hc => hxcs (List.mem_cons_of_mem ch hc)⟩

/-- C10: for every input that is exactly an 11-character video id (and so
matches the group-less bare-id pattern, not the URL patterns),
`extractVideoId` returns the JavaScript value `undefined` — falsy and not
the id itself — and `addVideoToQueue` therefore rejects the input with the
invalid-URL error, leaving the store and cache untouched. -/
theorem extractVideoId_bare_id_rejected (url : String)
    (h : isBareId url.toList = true) :
    extractVideoId url = .undefinedV ∧
    ∀ (db : DB) (c : Cache) (roomId userId newId addedAt : String) (now : Nat),
      addVideoToQueue db c roomId userId url newId addedAt now =
        (.error "Invalid YouTube URL", db, c) := by
  have hall : ∀ x ∈ url.toList, idChar x = true := by
    unfold isBareId at h
    simp only [Bool.and_eq_true] at h
    exact List.all_eq_true.mp h.2
  have hdot : ('.' : Char) ∉ url.toList := by
    intro hc
    have := hall '.' hc
    simp [idChar] at this
  have hd1 : ∀ a ∈ pat1Alts, ('.' : Char) ∈ a := by decide
  have hd2 : ∀ a ∈ pat2Alts, ('.' : Char) ∈ a := by decide
  have h1 : scanAlts pat1Alts url.toList = none :=
    scanAlts_none _ _ (fun a ha => ⟨'.', hd1 a ha, hdot⟩)
  have h2 : scanAlts pat2Alts url.toList = none :=
    scanAlts_none _ _ (fun a ha => ⟨'.', hd2 a ha, hdot⟩)
  have hext : extractVideoId url = .undefinedV := by
    unfold extractVideoId
    dsimp only
    rw [h1, h2, if_pos h]
  refine ⟨hext, ?_⟩
  intro db c roomId userId newId addedAt now
  unfold addVideoToQueue
  rw [hext]
  rfl

/-- Witness for C10 at a concrete bare video id. -/
theorem extractVideoId_bare_id_rejected_witness :
    extractVideoId "dQw4w9WgXcQ" = .undefinedV ∧
    addVideoToQueue dbAB emptyCache "r" "u" "dQw4w9WgXcQ" "n" "3" 9 =
      (.error "Invalid YouTube URL", dbAB, emptyCache) :=
  ⟨(extractVideoId_bare_id_rejected "dQw4w9WgXcQ" (by decide)).1,
   (extractVideoId_bare_id_rejected "dQw4w9WgXcQ" (by decide)).2
     dbAB emptyCache "r" "u" "n" "3" 9⟩

theorem lexLtb_irrefl : ∀ l : List Char, lexLtb l l = false := by
  intro l
  induction l with
  | nil => rfl
  | cons a t ih =>
    unfold lexLtb
    have : charLtb a a = false := by
      unfold charLtb
      simp
    rw [this]
    simp only [Bool.false_eq_true, if_false]
    exact ih

theorem lexLtb_asymm : ∀ l1 l2 : List Char, lexLtb l1 l2 = true → lexLtb l2 l1 = false := by
  intro l1
  induction l1 with
  | nil =>
    intro l2 h
    cases l2 with
    | nil => cases h
    | cons b t => rfl
  | cons a t1 ih =>
    intro l2 h
    cases l2 with
    | nil => cases h
    | cons b t2 =>
      unfold lexLtb at h ⊢
      by_cases hab : charLtb a b = true
      · have hba : charLtb b a = false := by
          unfold charLtb at hab ⊢
          simp only [decide_eq_true_eq] at hab
          simp only [decide_eq_false_iff_not]
          omega
        rw [hba, hab]
        simp
      · simp only [Bool.not_eq_true] at hab
        rw [hab] at h
        simp only [Bool.false_eq_true, if_false] at h
        by_cases hba : charLtb b a = true
        · rw [hba] at h
          simp only [if_true] at h
          cases h
        · simp only [Bool.not_eq_true] at hba
          rw [hba] at h ⊢
          simp only [Bool.false_eq_true, if_false] at h ⊢
          rw [hab]
          simp only [Bool.false_eq_true, if_false]
          exact ih t2 h

theorem lexLtb_conn : ∀ l1 l2 : List Char,
    lexLtb l1 l2 = false → lexLtb l2 l1 = false → l1 = l2 := by
  intro l1
  induction l1 with
  | nil =>
    intro l2 h1 _
    cases l2 with
    | nil => rfl
    | cons b t => cases h1
  | cons a t1 ih =>
    intro l2 h1 h2
    cases l2 with
    | nil => cases h2
    | cons b t2 =>
      unfold lexLtb at h1 h2
      by_cases hab : charLtb a b = true
      · rw [hab] at h1
        simp at h1
      · simp only [Bool.not_eq_true] at hab
        rw [hab] at h1
        simp only [Bool.false_eq_true, if_false] at h1
        by_cases hba : charLtb b a = true
        · rw [hba] at h2
          simp at h2
        · simp only [Bool.not_eq_true] at hba
          rw [hba] at h1 h2
          simp only [Bool.false_eq_true, if_false] at h1 h2
          rw [hab] at h2
          simp only [Bool.false_eq_true, if_false] at h2
          have hchar : a = b := by
            unfold charLtb at hab hba
            simp only [decide_eq_false_iff_not] at hab hba
            have : a.toNat = b.toNat := by omega
            exact Char.ext (UInt32.ext this)
          rw [hchar, ih t2 h1 h2]

theorem lexLtb_trans : ∀ l1 l2 l3 : List Char,
    lexLtb l1 l2 = true → lexLtb l2 l3 = true → lexLtb l1 l3 = true := by
  intro l1
  induction l1 with
  | nil =>
    intro l2 l3 h1 h2
    cases l2 with
    | nil => cases h1
    | cons b t2 =>
      cases l3 with
      | nil => cases h2
      | cons c t3 => rfl
  | cons a t1 ih =>
    intro l2 l3 h1 h2
    cases l2 with
    | nil => cases h1
    | cons b t2 =>
      cases l3 with
      | nil => cases h2
      | cons c t3 =>
        unfold lexLtb at h1 h2 ⊢
        unfold charLtb at h1 h2 ⊢
        by_cases hab : a.toNat < b.toNat <;> by_cases hbc : b.toNat < c.toNat
        · simp [show a.toNat < c.toNat by omega]
        · rw [decide_eq_false hbc] at h2
          simp only [Bool.false_eq_true, if_false] at h2
          by_cases hcb : c.toNat < b.toNat
          · simp [hcb] at h2
          · have : b.toNat = c.toNat := by omega
            simp [show a.toNat < c.toNat by omega]
        · rw [decide_eq_false hab] at h1
          simp only [Bool.false_eq_true, if_false] at h1
          by_cases hba : b.toNat < a.toNat
          · simp [hba] at h1
          · have : a.toNat = b.toNat := by omega
            simp [show a.toNat < c.toNat by omega]
        · rw [decide_eq_false hab] at h1
          simp only [Bool.false_eq_true, if_false] at h1
          rw [decide_eq_false hbc] at h2
          simp only [Bool.false_eq_true, if_false] at h2
          by_cases hba : b.toNat < a.toNat
          · simp [hba] at h1
          · by_cases hcb : c.toNat < b.toNat
            · simp [hcb] at h2
            · rw [decide_eq_false hba] at h1
              simp only [Bool.false_eq_true, if_false] at h1
              rw [decide_eq_false hcb] at h2
              simp only [Bool.false_eq_true, if_false] at h2
              have hac : ¬ a.toNat < c.toNat := by omega
              have hca : ¬ c.toNat < a.toNat := by omega
              rw [decide_eq_false hac, decide_eq_false hca]
              simp only [Bool.false_eq_true, if_false]
              exact ih t2 t3 h1 h2

theorem strLeb_total (a b : String) : strLeb a b = true ∨ strLeb b a = true := by
  unfold strLeb
  by_cases h : strLtb b a = true
  · right
    unfold strLtb at h ⊢
    rw [lexLtb_asymm _ _ h]
    rfl
  · left
    simp only [Bool.not_eq_true] at h
    rw [h]
    rfl

theorem strLeb_trans (a b c : String) (h1 : strLeb a b = true) (h2 : strLeb b c = true) :
    strLeb a c = true := by
  unfold strLeb strLtb at h1 h2 ⊢
  simp only [Bool.not_eq_true'] at h1 h2 ⊢
  by_cases hca : lexLtb c.toList a.toList = true
  · by_cases hab : lexLtb a.toList b.toList = true
    · have := lexLtb_trans _ _ _ hca hab
      rw [this] at h2
      cases h2
    · simp only [Bool.not_eq_true] at hab
      have := lexLtb_conn _ _ hab h1
      rw [← this] at h2
      rw [hca] at h2
      cases h2
  · simp only [Bool.not_eq_true] at hca
    exact hca

theorem queueRel_total (a b : QRow) : queueRel a b ∨ queueRel b a := by
  rcases lt_trichotomy a.1.net_votes b.1.net_votes with h | h | h
  · right; left; exact h
  · rcases strLeb_total a.1.added_at b.1.added_at with hs | hs
    · left; right; exact ⟨h, hs⟩
    · right; right; exact ⟨h.symm, hs⟩
  · left; left; exact h

theorem queueRel_trans (a b c : QRow) (hab : queueRel a b) (hbc : queueRel b c) :
    queueRel a c := by
  rcases hab with h1 | ⟨h1, hs1⟩ <;> rcases hbc with h2 | ⟨h2, hs2⟩
  · left; omega
  · left; omega
  · left; omega
  · right; exact ⟨h1.trans h2, strLeb_trans _ _ _ hs1 hs2⟩

theorem zadd_fold_append :
    ∀ (l : List QRow) (acc : List (QRow × Int)),
      (∀ e ∈ acc, ∀ r ∈ l, serializeRow e.1 ≠ serializeRow r) →
      l.Pairwise (fun a b => serializeRow a ≠ serializeRow b) →
      l.foldl (fun acc2 r => zaddEntry acc2 r r.1.net_votes) acc =
        acc ++ l.map (fun r => (r, r.1.net_votes)) := by
  intro l
  induction l with
  | nil => intro acc _ _; simp
  | cons r t ih =>
    intro acc hacc hpw
    rcases List.pairwise_cons.mp hpw with ⟨hr, ht⟩
    have hstep : zaddEntry acc r r.1.net_votes = acc ++ [(r, r.1.net_votes)] := by
      unfold zaddEntry
      have hany : acc.any (fun e => serializeRow e.1 = serializeRow r) = false := by
        rw [Bool.eq_false_iff]
        intro hc
        rcases List.any_eq_true.mp hc with ⟨e, he, hse⟩
        exact hacc e he r (by simp) (by simpa using hse)
      rw [hany]
      simp
    rw [List.foldl_cons, hstep]
    rw [ih (acc ++ [(r, r.1.net_votes)]) ?_ ht]
    · simp
    · intro e he r' hr'
      rcases List.mem_append.mp he with he | he
      · exact hacc e he r' (by simp [hr'])
      · have heq : e = (r, r.1.net_votes) := by simpa using he
        rw [heq]
        exact hr r' hr'

theorem sorted_entries_of_distinct (L : List QRow)
    (hsort : L.Sorted queueRel)
    (hnets : L.Pairwise (fun a b => a.1.net_votes ≠ b.1.net_votes)) :
    (L.map (fun r => (r, r.1.net_votes))).Sorted zrevRel := by
  unfold List.Sorted at hsort ⊢
  rw [List.pairwise_map]
  have hand := hsort.and hnets
  refine hand.imp ?_
  intro a b hab
  rcases hab with ⟨hq | ⟨heq, _⟩, hne⟩
  · left; exact hq
  · exact absurd heq hne

/-- C3 counterexample: room `r` holds two tied items (`net_votes` both 0);
the store query orders them by earliest submission, `[A, B]`, while the Redis
sorted set written by `updateRoomQueue` and read back by `getRoomQueue`
orders the tie by reverse-lexicographic member string, `[B, A]` — the two
paths do not use the same comparator on ties. -/
theorem cache_order_differs_on_ties :
    vidA.net_votes = vidB.net_votes ∧
    sortedActiveRows dbAB "r" = [(vidA, "alice"), (vidB, "alice")] ∧
    cacheQueueRead (syncQueueToRedisOp dbAB "r" emptyCache 5) "r" =
      [(vidB, "alice"), (vidA, "alice")] ∧
    cacheQueueRead (syncQueueToRedisOp dbAB "r" emptyCache 5) "r" ≠
      sortedActiveRows dbAB "r" := by decide

/-- C3 (amended): when no two active items of the room share a net score
(so no tie-break is needed; serialized members are then pairwise distinct as
well), writing the store's queue into the Redis sorted set and reading it
back reproduces exactly the store's order — both paths order by `net_votes`
descending, and only the tie-break differs between them. -/
theorem cache_order_matches_store_of_distinct_nets
    (db : DB) (c : Cache) (rid : String) (now : Nat)
    (hnets : (activeRows db rid).Pairwise (fun a b => a.1.net_votes ≠ b.1.net_votes))
    (hser : (activeRows db rid).Pairwise (fun a b => serializeRow a ≠ serializeRow b)) :
    cacheQueueRead (syncQueueToRedisOp db rid c now) rid = sortedActiveRows db rid := by
  have hperm : (sortedActiveRows db rid).Perm (activeRows db rid) :=
    List.perm_insertionSort queueRel _
  have hnetsL : (sortedActiveRows db rid).Pairwise
      (fun a b => a.1.net_votes ≠ b.1.net_votes) :=
    (hperm.pairwise_iff (fun h hc => h hc.symm)).mpr hnets
  have hserL : (sortedActiveRows db rid).Pairwise
      (fun a b => serializeRow a ≠ serializeRow b) :=
    (hperm.pairwise_iff (fun h hc => h hc.symm)).mpr hser
  haveI : IsTotal QRow queueRel := ⟨queueRel_total⟩
  haveI : IsTrans QRow queueRel := ⟨queueRel_trans⟩
  have hsort : (sortedActiveRows db rid).Sorted queueRel :=
    List.sorted_insertionSort queueRel _
  have hfold := zadd_fold_append (sortedActiveRows db rid) []
    (by intro e he; cases he) hserL
  have hsorted2 := sorted_entries_of_distinct _ hsort hnetsL
  unfold cacheQueueRead syncQueueToRedisOp updateRoomQueue
  dsimp only
  rw [hfold, List.nil_append]
  have hrq : ∀ (x : Cache), (cacheSetLastUpdate x rid now).roomQueue = x.roomQueue :=
    fun x => rfl
  rw [hrq]
  rw [aget_aset_self]
  rw [Option.getD_some]
  rw [List.Sorted.insertionSort_eq hsorted2]
  rw [List.map_map]
  rw [show ((fun x : QRow × Int => x.1) ∘ fun r : QRow => (r, r.1.net_votes)) = id
    from rfl]
  exact List.map_id _

/-- Witness for the amended C3 at a concrete state. -/
theorem cache_order_matches_store_witness :
    cacheQueueRead (syncQueueToRedisOp dbDV "r" emptyCache 5) "r" =
      sortedActiveRows dbDV "r" :=
  cache_order_matches_store_of_distinct_nets dbDV emptyCache "r" 5
    (by decide) (by decide)
